import Mathlib

/-!
Shallow embedding of the multi-hypotheses tracking model core
(`src/model.cpp`, class `mht::Model`): feature-count / weight-layout
computation, weight descriptions, ground-truth reconstruction from link
annotations, and solution verification.

Conventions of the embedding:
* `std::map` iteration is modelled as an association list traversed in
  list order (for `std::map` the list is its key-sorted enumeration).
* Optimizer variable ids are `Int`, with `-1` as the "absent" sentinel,
  exactly as the source uses them.  A `Solution` is modelled as a total
  map `Int → Nat`; the C++ `std::vector<size_t>` indexed by variable id
  corresponds to its restriction to assigned (non-negative) ids, and a
  write at the sentinel id `-1` (which in C++ is an out-of-bounds vector
  write) is modelled as a write at key `-1`.
* Feature values (C++ `double`) are never inspected by any of the
  embedded operations; only feature-vector lengths matter.  We model the
  entries as rationals.
* C++ exceptions become `Except` errors; the distinct `runtime_error`
  message shapes become constructors of explicit error types.
-/

namespace mht

/-- A binary decision variable: feature vector plus assigned optimizer
variable id (`-1` = absent), mirroring the `Variable` class used by
`model.cpp` (accessors `getNumFeatures`, `getOpenGMVariableId`). -/
structure Variable where
  features : List Rat
  openGMVariableId : Int
deriving DecidableEq

/-- `Variable::getNumFeatures`: the length of the feature vector. -/
def Variable.getNumFeatures (v : Variable) : Nat := v.features.length

/-- A default-constructed `Variable`: no features, no assigned id. -/
def defaultVariable : Variable := ⟨[], -1⟩

/-- One trackable-object candidate with its four decision variables
(detection, division, appearance, disappearance), mirroring
`SegmentationHypothesis`.  Its id is the key under which it is stored in
the model's map. -/
structure SegmentationHypothesis where
  detection : Variable := defaultVariable
  division : Variable := defaultVariable
  appearance : Variable := defaultVariable
  disappearance : Variable := defaultVariable
deriving DecidableEq

/-- A default-constructed `SegmentationHypothesis`, as produced by
`std::map::operator[]` on a missing key: all four variables absent. -/
def defaultSegmentation : SegmentationHypothesis := {}

/-- A candidate transition between two segmentation hypotheses; the
`(srcId, destId)` pair is the key under which it is stored in the
model's map, mirroring `LinkingHypothesis` (we keep only the link
`Variable`, the ids live in the map key). -/
structure LinkingHypothesis where
  var : Variable
deriving DecidableEq

/-- A mutual-exclusion constraint over segmentation-hypothesis ids,
mirroring `ExclusionConstraint` (its member ids; its solution check is
implemented outside `model.cpp` and is kept abstract below). -/
structure ExclusionConstraint where
  ids : List Int
deriving DecidableEq

/-- The aggregate model state of `mht::Model`: segmentation hypotheses
keyed by id, linking hypotheses keyed by `(srcId, destId)`, and the
exclusion constraints. -/
structure Model where
  segmentationHypotheses : List (Int × SegmentationHypothesis)
  linkingHypotheses : List ((Int × Int) × LinkingHypothesis)
  exclusionConstraints : List ExclusionConstraint

/-- A solution labeling: value per optimizer variable id.  The C++
`Solution` is a `std::vector<size_t>` indexed by variable id; we model
it as a total map from `Int` so that the source's unchecked accesses at
the sentinel id `-1` stay expressible. -/
def Solution : Type := Int → Nat

/-- The all-zero solution, mirroring
`Solution solution(model_.numberOfVariables(), 0)`. -/
def initSolution : Solution := fun _ => 0

/-- Write one slot of a solution: `solution[i] = v`. -/
def setSol (sol : Solution) (i : Int) (v : Nat) : Solution :=
  fun j => if j = i then v else sol j

/-- The consistency error thrown by `Model::computeNumWeights`: message
`<name> + " do not have the same number of features!"`. -/
inductive ConsistencyError where
  | mismatch (name : String)
deriving DecidableEq

/-- The body of the `checkNumFeatures` lambda in
`Model::computeNumWeights`, lifted to feature counts: update the
previously seen feature count of a category (initially `-1`), throwing
when a positive count disagrees with an earlier positive count. -/
def checkLen (name : String) (previousNumFeats : Int) (numFeatures : Nat) :
    Except ConsistencyError Int :=
  if previousNumFeats < 0 ∧ 0 < numFeatures then .ok (numFeatures : Int)
  else if 0 < numFeatures ∧ (numFeatures : Int) ≠ previousNumFeats then
    .error (.mismatch name)
  else .ok previousNumFeats

/-- The `checkNumFeatures` lambda of `Model::computeNumWeights`. -/
def checkNumFeatures (var : Variable) (previousNumFeats : Int) (name : String) :
    Except ConsistencyError Int :=
  checkLen name previousNumFeats var.getNumFeatures

/-- Accumulator of the segmentation-hypotheses loop of
`Model::computeNumWeights`: the four per-category feature counts,
`-1` while unseen. -/
structure SegAcc where
  det : Int
  div : Int
  app : Int
  dis : Int
deriving DecidableEq

/-- One iteration of the segmentation-hypotheses loop of
`Model::computeNumWeights`: check detection, division, appearance and
disappearance variables in source order. -/
def segStep (acc : SegAcc) (hyp : SegmentationHypothesis) :
    Except ConsistencyError SegAcc :=
  match checkNumFeatures hyp.detection acc.det "Detections" with
  | .error e => .error e
  | .ok d =>
    match checkNumFeatures hyp.division acc.div "Divisions" with
    | .error e => .error e
    | .ok v =>
      match checkNumFeatures hyp.appearance acc.app "Appearances" with
      | .error e => .error e
      | .ok a =>
        match checkNumFeatures hyp.disappearance acc.dis "Disappearances" with
        | .error e => .error e
        | .ok s => .ok ⟨d, v, a, s⟩

/-- The segmentation-hypotheses loop of `Model::computeNumWeights`. -/
def segLoop (acc : SegAcc) : List (Int × SegmentationHypothesis) →
    Except ConsistencyError SegAcc
  | [] => .ok acc
  | p :: rest =>
    match segStep acc p.2 with
    | .error e => .error e
    | .ok acc2 => segLoop acc2 rest

/-- The linking-hypotheses loop of `Model::computeNumWeights`: the first
link fixes the count (no positivity guard, unlike the segmentation
categories), later links must match it exactly. -/
def linkLoop (numLinkFeatures : Int) : List ((Int × Int) × LinkingHypothesis) →
    Except ConsistencyError Int
  | [] => .ok numLinkFeatures
  | p :: rest =>
    if numLinkFeatures < 0 then linkLoop (p.2.var.getNumFeatures : Int) rest
    else if (p.2.var.getNumFeatures : Int) ≠ numLinkFeatures then
      .error (.mismatch "Links")
    else linkLoop numLinkFeatures rest

/-- The five per-category feature counts stored by
`Model::computeNumWeights` (`numDetFeatures_`, ..., `numLinkFeatures_`)
after clamping to non-negative values. -/
structure FeatureCounts where
  det : Nat
  div : Nat
  app : Nat
  dis : Nat
  link : Nat
deriving DecidableEq

/-- `Model::computeNumWeights`, up to its final arithmetic: run both
loops and clamp each count with `std::max(0, ·)`. -/
def computeCounts (m : Model) : Except ConsistencyError FeatureCounts :=
  match segLoop ⟨-1, -1, -1, -1⟩ m.segmentationHypotheses with
  | .error e => .error e
  | .ok acc =>
    match linkLoop (-1) m.linkingHypotheses with
    | .error e => .error e
    | .ok lf =>
      .ok ⟨(max 0 acc.det).toNat, (max 0 acc.div).toNat, (max 0 acc.app).toNat,
           (max 0 acc.dis).toNat, (max 0 lf).toNat⟩

/-- `Model::computeNumWeights`: two sets of weights for all features to
represent state "on" and "off", i.e.
`2 * (numDetFeatures_ + numDivFeatures_ + numLinkFeatures_ +
numAppFeatures_ + numDisFeatures_)`. -/
def computeNumWeights (m : Model) : Except ConsistencyError Nat :=
  (computeCounts m).map (fun c => 2 * (c.det + c.div + c.link + c.app + c.dis))

/-- The weight-description string built by `Model::getWeightDescriptions`:
`name << " = " << state << " - feature " << f`. -/
def descString (name : String) (state f : Nat) : String :=
  name ++ " = " ++ toString state ++ " - feature " ++ toString f

/-- The `addVariableWeightDescriptions` lambda of
`Model::getWeightDescriptions`, with the two-iteration state loop
(`state = 0, 1`) unrolled. -/
def addVariableWeightDescriptions (numFeatures : Nat) (name : String) :
    List String :=
  ((List.range numFeatures).map (fun f => descString name 0 f)) ++
  ((List.range numFeatures).map (fun f => descString name 1 f))

/-- `Model::getWeightDescriptions`: recompute the feature counts, then
emit descriptions in the source's order Detection, Division, Appearance,
Disappearance, Link. -/
def getWeightDescriptions (m : Model) : Except ConsistencyError (List String) :=
  (computeCounts m).map (fun c =>
    addVariableWeightDescriptions c.det "Detection" ++
    addVariableWeightDescriptions c.div "Division" ++
    addVariableWeightDescriptions c.app "Appearance" ++
    addVariableWeightDescriptions c.dis "Disappearance" ++
    addVariableWeightDescriptions c.link "Link")

/-- The five weight categories. -/
inductive WCat where
  | link
  | det
  | div
  | app
  | dis
deriving DecidableEq

/-- The weight-index layout of `Model::initializeOpenGMModel`: the
`std::iota` calls assign link weight ids first (starting at 0), then
detection, division, appearance, disappearance ids, each range of size
`2 × count`.  Position `i` of this list is the category owning weight
`i`. -/
def weightLayout (c : FeatureCounts) : List WCat :=
  List.replicate (2 * c.link) WCat.link ++
  List.replicate (2 * c.det) WCat.det ++
  List.replicate (2 * c.div) WCat.div ++
  List.replicate (2 * c.app) WCat.app ++
  List.replicate (2 * c.dis) WCat.dis

/-- Modelled from the spec: the spec asserts the weight descriptions are
"in the same category order" as the weight-index layout, i.e. the
contiguous concatenation {link, detection, division, appearance,
disappearance}.  This definition follows those words (for comparison
against `getWeightDescriptions`, which is translated from the source). -/
def specWeightDescriptions (c : FeatureCounts) : List String :=
  addVariableWeightDescriptions c.link "Link" ++
  addVariableWeightDescriptions c.det "Detection" ++
  addVariableWeightDescriptions c.div "Division" ++
  addVariableWeightDescriptions c.app "Appearance" ++
  addVariableWeightDescriptions c.dis "Disappearance"

/-- The description string that `getWeightDescriptions` places at
position `i`: the categories appear in the order detection, division,
appearance, disappearance, link, each block of size `2 × count` holding
state `0` descriptions before state `1` descriptions. -/
def descEntry (c : FeatureCounts) (i : Nat) : String :=
  if i < 2 * c.det then descString "Detection" (i / c.det) (i % c.det)
  else if i - 2 * c.det < 2 * c.div then
    descString "Division" ((i - 2 * c.det) / c.div) ((i - 2 * c.det) % c.div)
  else if i - 2 * c.det - 2 * c.div < 2 * c.app then
    descString "Appearance" ((i - 2 * c.det - 2 * c.div) / c.app)
      ((i - 2 * c.det - 2 * c.div) % c.app)
  else if i - 2 * c.det - 2 * c.div - 2 * c.app < 2 * c.dis then
    descString "Disappearance" ((i - 2 * c.det - 2 * c.div - 2 * c.app) / c.dis)
      ((i - 2 * c.det - 2 * c.div - 2 * c.app) % c.dis)
  else
    descString "Link" ((i - 2 * c.det - 2 * c.div - 2 * c.app - 2 * c.dis) / c.link)
      ((i - 2 * c.det - 2 * c.div - 2 * c.app - 2 * c.dis) % c.link)

/-- One ground-truth link annotation, an entry of the `linkResults`
array read by `Model::readGTfromJson`: source id, destination id, and
the boolean `value`. -/
structure GTLink where
  srcId : Int
  destId : Int
  value : Bool
deriving DecidableEq

/-- The errors thrown by `Model::readGTfromJson`, one constructor per
distinct `runtime_error` message:
* `cannotFindLink`: "Cannot find link to annotate: <src> to <dest>";
* `sourceUsedMoreThanOnce`: "A source node has been used more than
  once!";
* `missingAppearance`: "Segmentation Hypothesis: <id> - GT contains
  appearing variable that has no appearance features set!";
* `missingDisappearance`: the symmetric disappearance message. -/
inductive GTError where
  | cannotFindLink (src dest : Int)
  | sourceUsedMoreThanOnce
  | missingAppearance (id : Int)
  | missingDisappearance (id : Int)
deriving DecidableEq

/-- `linkingHypotheses_.find(std::make_pair(src, dest))`: look up a
registered linking hypothesis by its id pair. -/
def lookupLink (m : Model) (src dest : Int) : Option LinkingHypothesis :=
  (m.linkingHypotheses.find? (fun p => p.1.1 = src ∧ p.1.2 = dest)).map (·.2)

/-- `segmentationHypotheses_[id]`: `std::map::operator[]` yields the
stored hypothesis, or a default-constructed one when the key is missing
(in that case C++ also inserts the default entry; the insertion is not
modelled, since every later use of such an entry dereferences its
sentinel ids, an out-of-bounds vector access). -/
def getSeg (m : Model) (id : Int) : SegmentationHypothesis :=
  match m.segmentationHypotheses.find? (fun p => p.1 = id) with
  | some p => p.2
  | none => defaultSegmentation

/-- The found-link body of the first loop of `Model::readGTfromJson`
(lines 253-265): set the link variable active, then set the source's
detection variable active, or its division variable when the detection
was already active.  The `sourceUsedMoreThanOnce` branch is kept exactly
where the source has it: in the else-branch of the very condition it
re-tests, hence unreachable. -/
def pass1Go (m : Model) (sol : Solution) (ann : GTLink)
    (hyp : LinkingHypothesis) : Except GTError Solution :=
  let sol1 := setSol sol hyp.var.openGMVariableId 1
  let src := getSeg m ann.srcId
  if sol1 src.detection.openGMVariableId = 1 then
    .ok (setSol sol1 src.division.openGMVariableId 1)
  else if sol1 src.detection.openGMVariableId = 1 then
    .error .sourceUsedMoreThanOnce
  else
    .ok (setSol sol1 src.detection.openGMVariableId 1)

/-- One iteration of the first loop of `Model::readGTfromJson`, with the
found-link part factored into `pass1Go`. -/
def pass1Step (m : Model) (sol : Solution) (ann : GTLink) :
    Except GTError Solution :=
  if ann.value then
    match lookupLink m ann.srcId ann.destId with
    | none => .error (.cannotFindLink ann.srcId ann.destId)
    | some hyp => pass1Go m sol ann hyp
  else .ok sol

/-- The first loop of `Model::readGTfromJson` over all annotations. -/
def pass1 (m : Model) (sol : Solution) : List GTLink → Except GTError Solution
  | [] => .ok sol
  | ann :: rest =>
    match pass1Step m sol ann with
    | .error e => .error e
    | .ok s => pass1 m s rest

/-- One iteration of the second loop of `Model::readGTfromJson`
(lines 270-281): for a `value = true` annotation, set the destination's
detection variable active. -/
def pass2Step (m : Model) (sol : Solution) (ann : GTLink) : Solution :=
  if ann.value then
    setSol sol (getSeg m ann.destId).detection.openGMVariableId 1
  else sol

/-- The second loop of `Model::readGTfromJson` over all annotations. -/
def pass2 (m : Model) (sol : Solution) : List GTLink → Solution
  | [] => sol
  | ann :: rest => pass2 m (pass2Step m sol ann) rest

/-- Modelled from the spec:
`SegmentationHypothesis::getNumActiveIncomingLinks` is not among the
available sources; per spec §4.3 step 3 it counts the active link
variables that have this hypothesis id as destination. -/
def getNumActiveIncomingLinks (m : Model) (id : Int) (sol : Solution) : Nat :=
  (m.linkingHypotheses.filter
    (fun p => p.1.2 = id ∧ sol p.2.var.openGMVariableId = 1)).length

/-- Modelled from the spec:
`SegmentationHypothesis::getNumActiveOutgoingLinks` is not among the
available sources; per spec §4.3 step 3 it counts the active link
variables that have this hypothesis id as source. -/
def getNumActiveOutgoingLinks (m : Model) (id : Int) (sol : Solution) : Nat :=
  (m.linkingHypotheses.filter
    (fun p => p.1.1 = id ∧ sol p.2.var.openGMVariableId = 1)).length

/-- One iteration of the closing loop of `Model::readGTfromJson`
(lines 283-319): for a hypothesis with active detection, activate its
appearance variable when it has no active incoming link (error when the
appearance variable is absent), then likewise its disappearance variable
when it has no active outgoing link. -/
def closingStep (m : Model) (sol : Solution)
    (idHyp : Int × SegmentationHypothesis) : Except GTError Solution :=
  let hyp := idHyp.2
  if 0 < sol hyp.detection.openGMVariableId then
    match
      (if getNumActiveIncomingLinks m idHyp.1 sol = 0 then
        if hyp.appearance.openGMVariableId = -1 then
          Except.error (GTError.missingAppearance idHyp.1)
        else Except.ok (setSol sol hyp.appearance.openGMVariableId 1)
      else Except.ok sol) with
    | .error e => .error e
    | .ok sol2 =>
      if getNumActiveOutgoingLinks m idHyp.1 sol2 = 0 then
        if hyp.disappearance.openGMVariableId = -1 then
          .error (.missingDisappearance idHyp.1)
        else .ok (setSol sol2 hyp.disappearance.openGMVariableId 1)
      else .ok sol2
  else .ok sol

/-- The closing loop of `Model::readGTfromJson` over all segmentation
hypotheses. -/
def closing (m : Model) (sol : Solution) :
    List (Int × SegmentationHypothesis) → Except GTError Solution
  | [] => .ok sol
  | p :: rest =>
    match closingStep m sol p with
    | .error e => .error e
    | .ok s => closing m s rest

/-- `Model::readGTfromJson` (after JSON parsing): reconstruct a full
solution from the link annotations by the two annotation passes followed
by the closing pass over all segmentation hypotheses. -/
def readGTfromJson (m : Model) (anns : List GTLink) : Except GTError Solution :=
  match pass1 m initSolution anns with
  | .error e => .error e
  | .ok s1 => closing m (pass2 m s1 anns) m.segmentationHypotheses

/-- Whether a reconstruction outcome is the duplicate-source-use error
("A source node has been used more than once!"). -/
def isSourceReuseError : Except GTError Solution → Bool
  | .error .sourceUsedMoreThanOnce => true
  | _ => false

/-- Whether a reconstruction outcome is a reference error ("Cannot find
link to annotate"). -/
def isRefError : Except GTError Solution → Bool
  | .error (.cannotFindLink _ _) => true
  | _ => false

/-- `Model::verifySolution`: check all exclusion constraints, then the
per-node conservation check of every segmentation hypothesis,
accumulating a log line per violation and never stopping early.  The two
delegated checks (`ExclusionConstraint::verifySolution` and
`SegmentationHypothesis::verifySolution`) are implemented outside
`model.cpp` and are therefore taken as parameters.  Returns the overall
boolean together with the log lines printed. -/
def verifySolution (m : Model)
    (excCheck : ExclusionConstraint → Solution → Bool)
    (hypCheck : SegmentationHypothesis → Solution → Bool)
    (sol : Solution) : Bool × List String :=
  let step1 := m.exclusionConstraints.foldl
    (fun (acc : Bool × List String) exc =>
      if excCheck exc sol then acc
      else (false, acc.2 ++ ["\tFound violated exclusion constraint "]))
    (true, [])
  m.segmentationHypotheses.foldl
    (fun (acc : Bool × List String) p =>
      if hypCheck p.2 sol then acc
      else (false, acc.2 ++ ["\tFound violated flow conservation constraint "]))
    step1

/-! ### Derived views and specification-side predicates -/

/-- The detection feature counts of all segmentation hypotheses, in map
order. -/
def detLens (m : Model) : List Nat :=
  m.segmentationHypotheses.map (fun p => p.2.detection.getNumFeatures)

/-- The division feature counts of all segmentation hypotheses. -/
def divLens (m : Model) : List Nat :=
  m.segmentationHypotheses.map (fun p => p.2.division.getNumFeatures)

/-- The appearance feature counts of all segmentation hypotheses. -/
def appLens (m : Model) : List Nat :=
  m.segmentationHypotheses.map (fun p => p.2.appearance.getNumFeatures)

/-- The disappearance feature counts of all segmentation hypotheses. -/
def disLens (m : Model) : List Nat :=
  m.segmentationHypotheses.map (fun p => p.2.disappearance.getNumFeatures)

/-- The link feature counts of all linking hypotheses. -/
def linkLens (m : Model) : List Nat :=
  m.linkingHypotheses.map (fun p => p.2.var.getNumFeatures)

/-- The feature counts of a weight category. -/
def catLensOf (m : Model) : WCat → List Nat
  | .det => detLens m
  | .div => divLens m
  | .app => appLens m
  | .dis => disLens m
  | .link => linkLens m

/-- The category name used in the consistency-error message of
`Model::computeNumWeights`. -/
def catNameOf : WCat → String
  | .det => "Detections"
  | .div => "Divisions"
  | .app => "Appearances"
  | .dis => "Disappearances"
  | .link => "Links"

/-- First positive entry of a list, `0` when there is none: the common
feature count of a category all of whose present variables agree. -/
def firstNonzero : List Nat → Nat
  | [] => 0
  | n :: rest => if n = 0 then firstNonzero rest else n

/-- The per-category feature count the spec describes: the common length
of the present (non-empty) feature vectors, `0` when there are none. -/
def specCatCount (ls : List Nat) : Nat := firstNonzero ls

/-- The link feature count: the source takes the first link's count with
no positivity guard. -/
def specLinkCount (ls : List Nat) : Nat := ls.headD 0

/-- Two present variables of one category carry distinct positive
feature counts. -/
def TwoDistinctNonzero (ls : List Nat) : Prop :=
  ∃ a ∈ ls, ∃ b ∈ ls, a ≠ 0 ∧ b ≠ 0 ∧ a ≠ b

/-- All present (positive-length) variables of one category agree. -/
def AgreesNonzero (ls : List Nat) : Prop :=
  ∀ a ∈ ls, ∀ b ∈ ls, a ≠ 0 → b ≠ 0 → a = b

/-- All entries of a list are equal (the link category tolerates no
difference at all). -/
def AllEqual (ls : List Nat) : Prop := ∀ a ∈ ls, ∀ b ∈ ls, a = b

instance decTwoDistinctNonzero (ls : List Nat) :
    Decidable (TwoDistinctNonzero ls) :=
  inferInstanceAs (Decidable (∃ a ∈ ls, ∃ b ∈ ls, a ≠ 0 ∧ b ≠ 0 ∧ a ≠ b))

instance decAgreesNonzero (ls : List Nat) : Decidable (AgreesNonzero ls) :=
  inferInstanceAs (Decidable (∀ a ∈ ls, ∀ b ∈ ls, a ≠ 0 → b ≠ 0 → a = b))

instance decAllEqual (ls : List Nat) : Decidable (AllEqual ls) :=
  inferInstanceAs (Decidable (∀ a ∈ ls, ∀ b ∈ ls, a = b))

/-- Per-category consistency as `Model::computeNumWeights` requires it:
positive counts must agree within each segmentation category, all link
counts must be equal outright. -/
def ConsistentCat (m : Model) : WCat → Prop
  | .det => AgreesNonzero (detLens m)
  | .div => AgreesNonzero (divLens m)
  | .app => AgreesNonzero (appLens m)
  | .dis => AgreesNonzero (disLens m)
  | .link => AllEqual (linkLens m)

/-- One category's run of the `checkNumFeatures` updates over a list of
feature counts, starting from a previous count (initially `-1`). -/
def catFold (name : String) (prev : Int) : List Nat → Except ConsistencyError Int
  | [] => .ok prev
  | n :: rest =>
    match checkLen name prev n with
    | .error e => .error e
    | .ok p2 => catFold name p2 rest

/-- All detection variable ids of the model. -/
def detIds (m : Model) : List Int :=
  m.segmentationHypotheses.map (fun p => p.2.detection.openGMVariableId)

/-- All link variable ids of the model. -/
def linkIds (m : Model) : List Int :=
  m.linkingHypotheses.map (fun p => p.2.var.openGMVariableId)

/-- Sanity of one hypothesis's variable-id assignment, as produced by
`Model::initializeOpenGMModel` (each present variable gets a fresh id):
an assigned appearance or disappearance id collides with no detection or
link id. -/
def WfEntry (m : Model) (p : Int × SegmentationHypothesis) : Prop :=
  (p.2.appearance.openGMVariableId = -1 ∨
    (p.2.appearance.openGMVariableId ∉ detIds m ∧
     p.2.appearance.openGMVariableId ∉ linkIds m)) ∧
  (p.2.disappearance.openGMVariableId = -1 ∨
    (p.2.disappearance.openGMVariableId ∉ detIds m ∧
     p.2.disappearance.openGMVariableId ∉ linkIds m))

/-- Sanity of the model's variable-id assignment. -/
def IdsWellFormed (m : Model) : Prop :=
  ∀ p ∈ m.segmentationHypotheses, WfEntry m p

/-- The closing pass must fail for this hypothesis on the appearance
side: active detection, no active incoming link, no appearance
variable. -/
def ViolApp (m : Model) (p : Int × SegmentationHypothesis) (sol : Solution) :
    Prop :=
  0 < sol p.2.detection.openGMVariableId ∧
  getNumActiveIncomingLinks m p.1 sol = 0 ∧
  p.2.appearance.openGMVariableId = -1

/-- The closing pass must fail for this hypothesis on the disappearance
side: active detection, no active outgoing link, no disappearance
variable. -/
def ViolDis (m : Model) (p : Int × SegmentationHypothesis) (sol : Solution) :
    Prop :=
  0 < sol p.2.detection.openGMVariableId ∧
  getNumActiveOutgoingLinks m p.1 sol = 0 ∧
  p.2.disappearance.openGMVariableId = -1

/-! ### Lemmas about the feature-count computation -/

theorem checkLen_zero (name : String) (prev : Int) :
    checkLen name prev 0 = .ok prev := by
  simp [checkLen]

theorem checkLen_neg_pos (name : String) {prev : Int} {n : Nat}
    (hp : prev < 0) (hn : 0 < n) : checkLen name prev n = .ok (n : Int) := by
  simp [checkLen, hp, hn]

theorem checkLen_keep (name : String) {prev : Int} {n : Nat}
    (hp : 0 ≤ prev) (hn : (n : Int) = prev ∨ n = 0) :
    checkLen name prev n = .ok prev := by
  have h1 : ¬(prev < 0 ∧ 0 < n) := by omega
  have h2 : ¬(0 < n ∧ (n : Int) ≠ prev) := by
    rcases hn with h | h
    · simp [h]
    · simp [h]
  simp [checkLen, h1, h2]

theorem checkLen_err (name : String) {prev : Int} {n : Nat}
    (hp : 0 ≤ prev) (hn : 0 < n) (hne : (n : Int) ≠ prev) :
    checkLen name prev n = .error (.mismatch name) := by
  have h1 : ¬(prev < 0 ∧ 0 < n) := by omega
  unfold checkLen
  rw [if_neg h1, if_pos ⟨hn, hne⟩]

theorem checkLen_error {name : String} {prev : Int} {n : Nat}
    {e : ConsistencyError} (h : checkLen name prev n = .error e) :
    e = .mismatch name ∧ 0 ≤ prev ∧ 0 < n ∧ (n : Int) ≠ prev := by
  unfold checkLen at h
  split at h
  · simp at h
  · split at h
    · rename_i h1 h2
      refine ⟨?_, by omega, h2.1, h2.2⟩
      injection h with h
      exact h.symm
    · simp at h

theorem checkLen_ok_pos {name : String} {prev p2 : Int} {n : Nat}
    (hn : 0 < n) (h : checkLen name prev n = .ok p2) : p2 = (n : Int) := by
  unfold checkLen at h
  split at h
  · injection h with h
    omega
  · split at h
    · simp at h
    · rename_i h1 h2
      injection h with h
      subst h
      by_contra hne
      exact h2 ⟨hn, fun heq => hne (by omega)⟩

theorem catFold_error_name {name : String} :
    ∀ (ls : List Nat) (prev : Int) (e : ConsistencyError),
      catFold name prev ls = .error e → e = .mismatch name := by
  intro ls
  induction ls with
  | nil => intro prev e h; simp [catFold] at h
  | cons n rest ih =>
    intro prev e h
    unfold catFold at h
    split at h
    · rename_i e2 hc
      injection h with h
      subst h
      exact (checkLen_error hc).1
    · rename_i p2 hc
      exact ih p2 e h

theorem catFold_same {name : String} {k : Nat} (hk : 0 < k) :
    ∀ ls : List Nat, (∀ a ∈ ls, a ≠ 0 → a = k) →
      catFold name (k : Int) ls = .ok (k : Int) := by
  intro ls
  induction ls with
  | nil => intro _; rfl
  | cons n rest ih =>
    intro h
    by_cases hn : n = 0
    · subst hn
      unfold catFold
      rw [checkLen_zero]
      exact ih fun a ha => h a (List.mem_cons_of_mem _ ha)
    · have hnk : n = k := h n (List.mem_cons_self _ _) hn
      subst hnk
      unfold catFold
      rw [checkLen_keep name (by omega) (Or.inl rfl)]
      exact ih fun a ha => h a (List.mem_cons_of_mem _ ha)

theorem catFold_agree {name : String} :
    ∀ ls : List Nat, AgreesNonzero ls →
      catFold name (-1) ls =
        .ok (if firstNonzero ls = 0 then -1 else (firstNonzero ls : Int)) := by
  intro ls
  induction ls with
  | nil => intro _; rfl
  | cons n rest ih =>
    intro h
    by_cases hn : n = 0
    · subst hn
      unfold catFold
      rw [checkLen_zero]
      have : firstNonzero (0 :: rest) = firstNonzero rest := by
        simp [firstNonzero]
      rw [this]
      exact ih fun a ha b hb => h a (List.mem_cons_of_mem _ ha)
        b (List.mem_cons_of_mem _ hb)
    · unfold catFold
      rw [checkLen_neg_pos name (by omega) (by omega)]
      have hfz : firstNonzero (n :: rest) = n := by simp [firstNonzero, hn]
      rw [hfz, if_neg hn]
      exact catFold_same (by omega) rest fun a ha hna =>
        h a (List.mem_cons_of_mem _ ha) n (List.mem_cons_self _ _) hna hn

theorem catFold_stuck {name : String} {b : Nat} (hb : b ≠ 0) :
    ∀ (ls : List Nat) (prev : Int), 0 ≤ prev → b ∈ ls → (b : Int) ≠ prev →
      catFold name prev ls = .error (.mismatch name) := by
  intro ls
  induction ls with
  | nil => intro prev _ hmem _; cases hmem
  | cons n rest ih =>
    intro prev hp hmem hne
    rcases List.mem_cons.mp hmem with hbn | hbr
    · subst hbn
      unfold catFold
      rw [checkLen_err name hp (by omega) hne]
    · by_cases hn0 : n = 0
      · subst hn0
        unfold catFold
        rw [checkLen_zero]
        exact ih prev hp hbr hne
      · by_cases hnp : (n : Int) = prev
        · unfold catFold
          rw [checkLen_keep name hp (Or.inl hnp)]
          exact ih prev hp hbr hne
        · unfold catFold
          rw [checkLen_err name hp (by omega) hnp]

theorem catFold_twoDistinct {name : String} :
    ∀ ls : List Nat, TwoDistinctNonzero ls →
      ∀ prev : Int, catFold name prev ls = .error (.mismatch name) := by
  intro ls
  induction ls with
  | nil => intro h; obtain ⟨a, ha, _⟩ := h; cases ha
  | cons n rest ih =>
    intro h prev
    obtain ⟨a, ha, b, hb, hna, hnb, hab⟩ := h
    rcases List.mem_cons.mp ha with han | har
    · rcases List.mem_cons.mp hb with hbn | hbr
      · exact absurd (han.trans hbn.symm) hab
      · -- a is the head, b in the tail
        subst han
        unfold catFold
        cases hc : checkLen name prev a with
        | error e =>
          rw [(checkLen_error hc).1]
        | ok p2 =>
          have hp2 : p2 = (a : Int) := checkLen_ok_pos (by omega) hc
          subst hp2
          exact catFold_stuck hnb rest (a : Int) (by omega) hbr
            (by exact_mod_cast fun hcontra => hab (by omega))
    · rcases List.mem_cons.mp hb with hbn | hbr
      · -- b is the head, a in the tail
        subst hbn
        unfold catFold
        cases hc : checkLen name prev b with
        | error e =>
          rw [(checkLen_error hc).1]
        | ok p2 =>
          have hp2 : p2 = (b : Int) := checkLen_ok_pos (by omega) hc
          subst hp2
          exact catFold_stuck hna rest (b : Int) (by omega) har
            (by exact_mod_cast fun hcontra => hab (by omega))
      · -- both in the tail
        unfold catFold
        cases hc : checkLen name prev n with
        | error e =>
          rw [(checkLen_error hc).1]
        | ok p2 =>
          exact ih ⟨a, har, b, hbr, hna, hnb, hab⟩ p2

theorem linkLoop_same {k : Nat} :
    ∀ ls : List ((Int × Int) × LinkingHypothesis),
      (∀ p ∈ ls, p.2.var.getNumFeatures = k) →
      linkLoop (k : Int) ls = .ok (k : Int) := by
  intro ls
  induction ls with
  | nil => intro _; rfl
  | cons p rest ih =>
    intro h
    unfold linkLoop
    rw [if_neg (by omega), if_neg (by
      rw [h p (List.mem_cons_self _ _)]
      simp)]
    exact ih fun q hq => h q (List.mem_cons_of_mem _ hq)

theorem linkLoop_allEqual :
    ∀ ls : List ((Int × Int) × LinkingHypothesis),
      AllEqual (ls.map fun p => p.2.var.getNumFeatures) →
      linkLoop (-1) ls =
        .ok (match ls with
             | [] => -1
             | p :: _ => (p.2.var.getNumFeatures : Int)) := by
  intro ls h
  cases ls with
  | nil => rfl
  | cons p rest =>
    unfold linkLoop
    rw [if_pos (by omega)]
    exact linkLoop_same rest fun q hq =>
      h _ (List.mem_map_of_mem _ (List.mem_cons_of_mem _ hq))
        _ (List.mem_map_of_mem _ (List.mem_cons_self _ _))

theorem linkLoop_stuck {b : Nat} :
    ∀ (ls : List ((Int × Int) × LinkingHypothesis)) (prev : Int), 0 ≤ prev →
      b ∈ ls.map (fun p => p.2.var.getNumFeatures) → (b : Int) ≠ prev →
      linkLoop prev ls = .error (.mismatch "Links") := by
  intro ls
  induction ls with
  | nil => intro prev _ hmem _; cases hmem
  | cons p rest ih =>
    intro prev hp hmem hne
    unfold linkLoop
    rw [if_neg (by omega)]
    rcases List.mem_cons.mp hmem with hbn | hbr
    · have hbn2 : b = p.2.var.getNumFeatures := hbn
      rw [if_pos (by omega)]
    · by_cases hnp : (p.2.var.getNumFeatures : Int) = prev
      · rw [if_neg (by simp [hnp])]
        exact ih prev hp hbr hne
      · rw [if_pos hnp]

theorem linkLoop_distinct {a b : Nat} (hab : a ≠ b) :
    ∀ (ls : List ((Int × Int) × LinkingHypothesis)),
      a ∈ ls.map (fun p => p.2.var.getNumFeatures) →
      b ∈ ls.map (fun p => p.2.var.getNumFeatures) →
      ∀ prev : Int, linkLoop prev ls = .error (.mismatch "Links") := by
  intro ls
  induction ls with
  | nil => intro ha _ _; cases ha
  | cons p rest ih =>
    intro ha hb prev
    rcases List.mem_cons.mp ha with han | har
    · rcases List.mem_cons.mp hb with hbn | hbr
      · exact absurd (han.trans hbn.symm) hab
      · -- a is the head count, b occurs in the tail
        have han2 : a = p.2.var.getNumFeatures := han
        unfold linkLoop
        by_cases hp : prev < 0
        · rw [if_pos hp]
          exact linkLoop_stuck rest _ (by omega) hbr (by omega)
        · rw [if_neg hp]
          by_cases hnp : (p.2.var.getNumFeatures : Int) = prev
          · rw [if_neg (by simp [hnp])]
            exact linkLoop_stuck rest prev (by omega) hbr (by omega)
          · rw [if_pos hnp]
    · rcases List.mem_cons.mp hb with hbn | hbr
      · -- b is the head count, a occurs in the tail
        have hbn2 : b = p.2.var.getNumFeatures := hbn
        unfold linkLoop
        by_cases hp : prev < 0
        · rw [if_pos hp]
          exact linkLoop_stuck rest _ (by omega) har (by omega)
        · rw [if_neg hp]
          by_cases hnp : (p.2.var.getNumFeatures : Int) = prev
          · rw [if_neg (by simp [hnp])]
            exact linkLoop_stuck rest prev (by omega) har (by omega)
          · rw [if_pos hnp]
      · -- both in the tail
        unfold linkLoop
        by_cases hp : prev < 0
        · rw [if_pos hp]
          exact ih har hbr _
        · rw [if_neg hp]
          by_cases hnp : (p.2.var.getNumFeatures : Int) = prev
          · rw [if_neg (by simp [hnp])]
            exact ih har hbr prev
          · rw [if_pos hnp]

theorem segStep_ok {acc : SegAcc} {hyp : SegmentationHypothesis} {acc2 : SegAcc}
    (h : segStep acc hyp = .ok acc2) :
    checkLen "Detections" acc.det hyp.detection.getNumFeatures = .ok acc2.det ∧
    checkLen "Divisions" acc.div hyp.division.getNumFeatures = .ok acc2.div ∧
    checkLen "Appearances" acc.app hyp.appearance.getNumFeatures = .ok acc2.app ∧
    checkLen "Disappearances" acc.dis hyp.disappearance.getNumFeatures =
      .ok acc2.dis := by
  unfold segStep checkNumFeatures at h
  cases h1 : checkLen "Detections" acc.det hyp.detection.getNumFeatures with
  | error e => rw [h1] at h; simp at h
  | ok d =>
    rw [h1] at h
    cases h2 : checkLen "Divisions" acc.div hyp.division.getNumFeatures with
    | error e => rw [h2] at h; simp at h
    | ok v =>
      rw [h2] at h
      cases h3 : checkLen "Appearances" acc.app hyp.appearance.getNumFeatures with
      | error e => rw [h3] at h; simp at h
      | ok a =>
        rw [h3] at h
        cases h4 : checkLen "Disappearances" acc.dis
            hyp.disappearance.getNumFeatures with
        | error e => rw [h4] at h; simp at h
        | ok s =>
          rw [h4] at h
          simp only at h
          injection h with h
          subst h
          exact ⟨rfl, rfl, rfl, rfl⟩

theorem segStep_error {acc : SegAcc} {hyp : SegmentationHypothesis}
    {e : ConsistencyError} (h : segStep acc hyp = .error e) :
    checkLen "Detections" acc.det hyp.detection.getNumFeatures = .error e ∨
    checkLen "Divisions" acc.div hyp.division.getNumFeatures = .error e ∨
    checkLen "Appearances" acc.app hyp.appearance.getNumFeatures = .error e ∨
    checkLen "Disappearances" acc.dis hyp.disappearance.getNumFeatures =
      .error e := by
  unfold segStep checkNumFeatures at h
  cases h1 : checkLen "Detections" acc.det hyp.detection.getNumFeatures with
  | error e1 =>
    rw [h1] at h
    simp only at h
    injection h with h
    subst h
    exact Or.inl rfl
  | ok d =>
    rw [h1] at h
    cases h2 : checkLen "Divisions" acc.div hyp.division.getNumFeatures with
    | error e1 =>
      rw [h2] at h
      simp only at h
      injection h with h
      subst h
      exact Or.inr (Or.inl rfl)
    | ok v =>
      rw [h2] at h
      cases h3 : checkLen "Appearances" acc.app hyp.appearance.getNumFeatures with
      | error e1 =>
        rw [h3] at h
        simp only at h
        injection h with h
        subst h
        exact Or.inr (Or.inr (Or.inl rfl))
      | ok a =>
        rw [h3] at h
        cases h4 : checkLen "Disappearances" acc.dis
            hyp.disappearance.getNumFeatures with
        | error e1 =>
          rw [h4] at h
          simp only at h
          injection h with h
          subst h
          exact Or.inr (Or.inr (Or.inr rfl))
        | ok s =>
          rw [h4] at h
          simp at h

theorem segLoop_ok_proj :
    ∀ (l : List (Int × SegmentationHypothesis)) {acc acc2 : SegAcc},
      segLoop acc l = .ok acc2 →
      catFold "Detections" acc.det
        (l.map fun p => p.2.detection.getNumFeatures) = .ok acc2.det ∧
      catFold "Divisions" acc.div
        (l.map fun p => p.2.division.getNumFeatures) = .ok acc2.div ∧
      catFold "Appearances" acc.app
        (l.map fun p => p.2.appearance.getNumFeatures) = .ok acc2.app ∧
      catFold "Disappearances" acc.dis
        (l.map fun p => p.2.disappearance.getNumFeatures) = .ok acc2.dis := by
  intro l
  induction l with
  | nil =>
    intro acc acc2 h
    unfold segLoop at h
    injection h with h
    subst h
    exact ⟨rfl, rfl, rfl, rfl⟩
  | cons p rest ih =>
    intro acc acc2 h
    unfold segLoop at h
    cases hs : segStep acc p.2 with
    | error e => rw [hs] at h; simp at h
    | ok acc1 =>
      rw [hs] at h
      simp only at h
      obtain ⟨hd, hv, ha, hdis⟩ := segStep_ok hs
      obtain ⟨ihd, ihv, iha, ihdis⟩ := ih h
      refine ⟨?_, ?_, ?_, ?_⟩ <;>
        · simp only [List.map_cons]
          unfold catFold
          first
          | (rw [hd]; exact ihd)
          | (rw [hv]; exact ihv)
          | (rw [ha]; exact iha)
          | (rw [hdis]; exact ihdis)

theorem segLoop_ok_build :
    ∀ (l : List (Int × SegmentationHypothesis)) {acc : SegAcc} {d v a s : Int},
      catFold "Detections" acc.det
        (l.map fun p => p.2.detection.getNumFeatures) = .ok d →
      catFold "Divisions" acc.div
        (l.map fun p => p.2.division.getNumFeatures) = .ok v →
      catFold "Appearances" acc.app
        (l.map fun p => p.2.appearance.getNumFeatures) = .ok a →
      catFold "Disappearances" acc.dis
        (l.map fun p => p.2.disappearance.getNumFeatures) = .ok s →
      segLoop acc l = .ok ⟨d, v, a, s⟩ := by
  intro l
  induction l with
  | nil =>
    intro acc d v a s hd hv ha hs
    unfold catFold at hd hv ha hs
    injection hd with hd
    injection hv with hv
    injection ha with ha
    injection hs with hs
    subst hd hv ha hs
    rfl
  | cons p rest ih =>
    intro acc d v a s hd hv ha hs
    simp only [List.map_cons] at hd hv ha hs
    unfold catFold at hd hv ha hs
    cases h1 : checkLen "Detections" acc.det p.2.detection.getNumFeatures with
    | error e => rw [h1] at hd; simp at hd
    | ok d1 =>
      rw [h1] at hd
      cases h2 : checkLen "Divisions" acc.div p.2.division.getNumFeatures with
      | error e => rw [h2] at hv; simp at hv
      | ok v1 =>
        rw [h2] at hv
        cases h3 : checkLen "Appearances" acc.app
            p.2.appearance.getNumFeatures with
        | error e => rw [h3] at ha; simp at ha
        | ok a1 =>
          rw [h3] at ha
          cases h4 : checkLen "Disappearances" acc.dis
              p.2.disappearance.getNumFeatures with
          | error e => rw [h4] at hs; simp at hs
          | ok s1 =>
            rw [h4] at hs
            simp only at hd hv ha hs
            have hstep : segStep acc p.2 = .ok ⟨d1, v1, a1, s1⟩ := by
              unfold segStep checkNumFeatures
              rw [h1, h2, h3, h4]
            unfold segLoop
            rw [hstep]
            exact ih hd hv ha hs

theorem segLoop_error_names :
    ∀ (l : List (Int × SegmentationHypothesis)) {acc : SegAcc}
      {e : ConsistencyError}, segLoop acc l = .error e →
      catFold "Detections" acc.det
        (l.map fun p => p.2.detection.getNumFeatures) = .error e ∨
      catFold "Divisions" acc.div
        (l.map fun p => p.2.division.getNumFeatures) = .error e ∨
      catFold "Appearances" acc.app
        (l.map fun p => p.2.appearance.getNumFeatures) = .error e ∨
      catFold "Disappearances" acc.dis
        (l.map fun p => p.2.disappearance.getNumFeatures) = .error e := by
  intro l
  induction l with
  | nil => intro acc e h; simp [segLoop] at h
  | cons p rest ih =>
    intro acc e h
    unfold segLoop at h
    cases hs : segStep acc p.2 with
    | error e1 =>
      rw [hs] at h
      simp only at h
      injection h with h
      subst h
      rcases segStep_error hs with hc | hc | hc | hc
      · refine Or.inl ?_
        simp only [List.map_cons]
        unfold catFold
        rw [hc]
      · refine Or.inr (Or.inl ?_)
        simp only [List.map_cons]
        unfold catFold
        rw [hc]
      · refine Or.inr (Or.inr (Or.inl ?_))
        simp only [List.map_cons]
        unfold catFold
        rw [hc]
      · refine Or.inr (Or.inr (Or.inr ?_))
        simp only [List.map_cons]
        unfold catFold
        rw [hc]
    | ok acc1 =>
      rw [hs] at h
      simp only at h
      obtain ⟨hd, hv, ha, hdis⟩ := segStep_ok hs
      rcases ih h with hc | hc | hc | hc
      · refine Or.inl ?_
        simp only [List.map_cons]
        unfold catFold
        rw [hd]
        exact hc
      · refine Or.inr (Or.inl ?_)
        simp only [List.map_cons]
        unfold catFold
        rw [hv]
        exact hc
      · refine Or.inr (Or.inr (Or.inl ?_))
        simp only [List.map_cons]
        unfold catFold
        rw [ha]
        exact hc
      · refine Or.inr (Or.inr (Or.inr ?_))
        simp only [List.map_cons]
        unfold catFold
        rw [hdis]
        exact hc

theorem clamp_firstNonzero (fz : Nat) :
    (max 0 (if fz = 0 then -1 else (fz : Int))).toNat = fz := by
  by_cases h : fz = 0
  · simp [h]
  · rw [if_neg h]
    omega

theorem segLoop_agree (m : Model)
    (hdet : AgreesNonzero (detLens m)) (hdiv : AgreesNonzero (divLens m))
    (happ : AgreesNonzero (appLens m)) (hdis : AgreesNonzero (disLens m)) :
    segLoop ⟨-1, -1, -1, -1⟩ m.segmentationHypotheses =
      .ok ⟨if firstNonzero (detLens m) = 0 then -1 else (firstNonzero (detLens m) : Int),
           if firstNonzero (divLens m) = 0 then -1 else (firstNonzero (divLens m) : Int),
           if firstNonzero (appLens m) = 0 then -1 else (firstNonzero (appLens m) : Int),
           if firstNonzero (disLens m) = 0 then -1 else (firstNonzero (disLens m) : Int)⟩ :=
  segLoop_ok_build m.segmentationHypotheses
    (catFold_agree _ hdet) (catFold_agree _ hdiv)
    (catFold_agree _ happ) (catFold_agree _ hdis)

theorem computeCounts_agree (m : Model)
    (hdet : AgreesNonzero (detLens m)) (hdiv : AgreesNonzero (divLens m))
    (happ : AgreesNonzero (appLens m)) (hdis : AgreesNonzero (disLens m))
    (hlink : AllEqual (linkLens m)) :
    computeCounts m = .ok ⟨specCatCount (detLens m), specCatCount (divLens m),
      specCatCount (appLens m), specCatCount (disLens m),
      specLinkCount (linkLens m)⟩ := by
  have hseg := segLoop_agree m hdet hdiv happ hdis
  have hlk := linkLoop_allEqual m.linkingHypotheses hlink
  unfold computeCounts
  rw [hseg, hlk]
  simp only
  congr 1
  have h1 := clamp_firstNonzero (firstNonzero (detLens m))
  have h2 := clamp_firstNonzero (firstNonzero (divLens m))
  have h3 := clamp_firstNonzero (firstNonzero (appLens m))
  have h4 := clamp_firstNonzero (firstNonzero (disLens m))
  cases hls : m.linkingHypotheses with
  | nil =>
    simp only [hls, FeatureCounts.mk.injEq]
    refine ⟨h1, h2, h3, h4, ?_⟩
    unfold specLinkCount linkLens
    rw [hls]
    rfl
  | cons p rest =>
    simp only [hls, FeatureCounts.mk.injEq]
    refine ⟨h1, h2, h3, h4, ?_⟩
    unfold specLinkCount linkLens
    rw [hls]
    simp

/-! ### Concrete example models -/

/-- A variable with `n` features and optimizer id `id`. -/
def mkVar (n : Nat) (id : Int) : Variable := ⟨List.replicate n 1, id⟩

/-- A featureless segmentation hypothesis with the given four variable
ids. -/
def segH (det div app dis : Int) : SegmentationHypothesis :=
  ⟨⟨[], det⟩, ⟨[], div⟩, ⟨[], app⟩, ⟨[], dis⟩⟩

/-- One segmentation hypothesis with one detection feature, one link
with one feature: the smallest model where the weight layout and the
description order can disagree. -/
def exampleG0 : Model :=
  { segmentationHypotheses := [(1, { detection := mkVar 1 0 })],
    linkingHypotheses := [((1, 1), ⟨mkVar 1 1⟩)],
    exclusionConstraints := [] }

/-! ### Lemmas about the weight descriptions -/

theorem addW_length (n : Nat) (name : String) :
    (addVariableWeightDescriptions n name).length = 2 * n := by
  simp [addVariableWeightDescriptions]
  omega

theorem addW_getElem (n : Nat) (name : String) (j : Nat) (h : j < 2 * n) :
    (addVariableWeightDescriptions n name)[j]? =
      some (descString name (j / n) (j % n)) := by
  unfold addVariableWeightDescriptions
  rw [List.getElem?_append]
  simp only [List.length_map, List.length_range]
  by_cases hj : j < n
  · rw [if_pos hj]
    simp only [List.getElem?_map]
    rw [List.getElem?_range hj]
    simp [Nat.div_eq_of_lt hj, Nat.mod_eq_of_lt hj]
  · rw [if_neg hj]
    have hn : 0 < n := by omega
    simp only [List.getElem?_map]
    rw [List.getElem?_range (by omega)]
    have hdiv : j / n = 1 := by
      have hj2 : j = (j - n) + n := by omega
      rw [hj2, Nat.add_div_right _ hn, Nat.div_eq_of_lt (by omega)]
    have hmod : j % n = j - n := by
      conv_lhs => rw [show j = (j - n) + n by omega]
      rw [Nat.add_mod_right, Nat.mod_eq_of_lt (by omega)]
    simp [hdiv, hmod]

theorem concat5_getElem {α : Type} (A B C D E : List α) (i : Nat) :
    (A ++ B ++ C ++ D ++ E)[i]? =
      if i < A.length then A[i]?
      else if i - A.length < B.length then B[i - A.length]?
      else if i - A.length - B.length < C.length then
        C[i - A.length - B.length]?
      else if i - A.length - B.length - C.length < D.length then
        D[i - A.length - B.length - C.length]?
      else E[i - A.length - B.length - C.length - D.length]? := by
  simp only [List.getElem?_append, List.length_append]
  split_ifs <;> first | rfl | (congr 1 <;> omega)

theorem detLens_def (m : Model) :
    (m.segmentationHypotheses.map fun p => p.2.detection.getNumFeatures) =
      detLens m := rfl

theorem divLens_def (m : Model) :
    (m.segmentationHypotheses.map fun p => p.2.division.getNumFeatures) =
      divLens m := rfl

theorem appLens_def (m : Model) :
    (m.segmentationHypotheses.map fun p => p.2.appearance.getNumFeatures) =
      appLens m := rfl

theorem disLens_def (m : Model) :
    (m.segmentationHypotheses.map fun p => p.2.disappearance.getNumFeatures) =
      disLens m := rfl

theorem computeCounts_error_lift (m : Model) {e : ConsistencyError}
    (h : computeCounts m = .error e) : computeNumWeights m = .error e := by
  unfold computeNumWeights
  rw [h]
  rfl

theorem seg_twoDistinct_not_ok (m : Model) {acc : SegAcc} (c : WCat)
    (hc : c ≠ .link) (htwo : TwoDistinctNonzero (catLensOf m c))
    (hs : segLoop ⟨-1, -1, -1, -1⟩ m.segmentationHypotheses = .ok acc) :
    False := by
  obtain ⟨h1, h2, h3, h4⟩ := segLoop_ok_proj _ hs
  dsimp only at h1 h2 h3 h4
  rw [detLens_def] at h1
  rw [divLens_def] at h2
  rw [appLens_def] at h3
  rw [disLens_def] at h4
  simp only [catLensOf] at htwo
  cases c with
  | det => rw [catFold_twoDistinct _ htwo] at h1; exact absurd h1 (by simp)
  | div => rw [catFold_twoDistinct _ htwo] at h2; exact absurd h2 (by simp)
  | app => rw [catFold_twoDistinct _ htwo] at h3; exact absurd h3 (by simp)
  | dis => rw [catFold_twoDistinct _ htwo] at h4; exact absurd h4 (by simp)
  | link => exact hc rfl

theorem seg_error_name (m : Model) {nm : String} (c : WCat) (hc : c ≠ .link)
    (hcons : ∀ c2, c2 ≠ c → ConsistentCat m c2)
    (hs : segLoop ⟨-1, -1, -1, -1⟩ m.segmentationHypotheses =
      .error (.mismatch nm)) :
    nm = catNameOf c := by
  have hnames := segLoop_error_names _ hs
  dsimp only at hnames
  rw [detLens_def, divLens_def, appLens_def, disLens_def] at hnames
  rcases hnames with h | h | h | h
  · -- the error came from the detection fold
    have hname := catFold_error_name _ _ _ h
    injection hname with hname
    cases c with
    | det => exact hname
    | link => exact absurd rfl hc
    | div =>
      rw [catFold_agree _ (hcons .det (by simp))] at h
      exact absurd h (by simp)
    | app =>
      rw [catFold_agree _ (hcons .det (by simp))] at h
      exact absurd h (by simp)
    | dis =>
      rw [catFold_agree _ (hcons .det (by simp))] at h
      exact absurd h (by simp)
  · have hname := catFold_error_name _ _ _ h
    injection hname with hname
    cases c with
    | div => exact hname
    | link => exact absurd rfl hc
    | det =>
      rw [catFold_agree _ (hcons .div (by simp))] at h
      exact absurd h (by simp)
    | app =>
      rw [catFold_agree _ (hcons .div (by simp))] at h
      exact absurd h (by simp)
    | dis =>
      rw [catFold_agree _ (hcons .div (by simp))] at h
      exact absurd h (by simp)
  · have hname := catFold_error_name _ _ _ h
    injection hname with hname
    cases c with
    | app => exact hname
    | link => exact absurd rfl hc
    | det =>
      rw [catFold_agree _ (hcons .app (by simp))] at h
      exact absurd h (by simp)
    | div =>
      rw [catFold_agree _ (hcons .app (by simp))] at h
      exact absurd h (by simp)
    | dis =>
      rw [catFold_agree _ (hcons .app (by simp))] at h
      exact absurd h (by simp)
  · have hname := catFold_error_name _ _ _ h
    injection hname with hname
    cases c with
    | dis => exact hname
    | link => exact absurd rfl hc
    | det =>
      rw [catFold_agree _ (hcons .dis (by simp))] at h
      exact absurd h (by simp)
    | div =>
      rw [catFold_agree _ (hcons .dis (by simp))] at h
      exact absurd h (by simp)
    | app =>
      rw [catFold_agree _ (hcons .dis (by simp))] at h
      exact absurd h (by simp)

/-! ### Claim theorems about weights and descriptions -/

/-- C5: for every graph, the number of weights computed by
`Model::computeNumWeights` equals the length of the list returned by
`Model::getWeightDescriptions` (and both fail with the same consistency
error on inconsistent graphs). -/
theorem claim_C5_numWeights_eq_descriptions_length (m : Model) :
    (getWeightDescriptions m).map List.length = computeNumWeights m := by
  unfold getWeightDescriptions computeNumWeights
  cases h : computeCounts m with
  | error e => rfl
  | ok c =>
    simp only [Except.map]
    congr 1
    simp only [List.length_append, addW_length]
    omega

/-- C6: for every graph in which the present variables of each category
agree on their feature-vector length, `Model::computeNumWeights` returns
`2 × (linkFeatureCount + detFeatureCount + divFeatureCount +
appFeatureCount + disFeatureCount)`, where a category with no present
variable (or only empty feature vectors) contributes count 0
(`specCatCount` / `specLinkCount`). -/
theorem claim_C6_numWeights_category_sum (m : Model)
    (hdet : AgreesNonzero (detLens m)) (hdiv : AgreesNonzero (divLens m))
    (happ : AgreesNonzero (appLens m)) (hdis : AgreesNonzero (disLens m))
    (hlink : AllEqual (linkLens m)) :
    computeNumWeights m = .ok (2 * (specLinkCount (linkLens m) +
      specCatCount (detLens m) + specCatCount (divLens m) +
      specCatCount (appLens m) + specCatCount (disLens m))) := by
  unfold computeNumWeights
  rw [computeCounts_agree m hdet hdiv happ hdis hlink]
  simp only [Except.map]
  congr 1
  ring

/-- A model with agreeing feature counts per category: detection 2,
division 1, appearance 0, disappearance 1, link 3. -/
def exampleM6 : Model :=
  { segmentationHypotheses :=
      [(1, { detection := mkVar 2 0, division := mkVar 1 1,
             disappearance := mkVar 1 2 }),
       (2, { detection := mkVar 2 3, disappearance := mkVar 1 4 })],
    linkingHypotheses := [((1, 2), ⟨mkVar 3 10⟩)],
    exclusionConstraints := [] }

/-- Witness for C6 on `exampleM6`: the hypotheses hold and the weight
count is `2 × (3 + 2 + 1 + 0 + 1) = 14`. -/
theorem claim_C6_numWeights_category_sum_witness :
    AgreesNonzero (detLens exampleM6) ∧ AgreesNonzero (divLens exampleM6) ∧
    AgreesNonzero (appLens exampleM6) ∧ AgreesNonzero (disLens exampleM6) ∧
    AllEqual (linkLens exampleM6) ∧
    computeNumWeights exampleM6 = .ok (2 * (specLinkCount (linkLens exampleM6) +
      specCatCount (detLens exampleM6) + specCatCount (divLens exampleM6) +
      specCatCount (appLens exampleM6) + specCatCount (disLens exampleM6))) :=
  ⟨by decide, by decide, by decide, by decide, by decide,
   claim_C6_numWeights_category_sum exampleM6 (by decide) (by decide)
     (by decide) (by decide) (by decide)⟩

/-- C7: for every graph containing two present variables of one category
with distinct positive feature counts, `Model::computeNumWeights` fails
with a ConsistencyError; when every other category is consistent, the
error names exactly the offending category (when several categories are
broken at once the loop order picks which one is reported). -/
theorem claim_C7_feature_mismatch_error (m : Model) (c : WCat) :
    (TwoDistinctNonzero (catLensOf m c) →
      ∃ nm, computeNumWeights m = .error (.mismatch nm)) ∧
    (TwoDistinctNonzero (catLensOf m c) →
      (∀ c2, c2 ≠ c → ConsistentCat m c2) →
      computeNumWeights m = .error (.mismatch (catNameOf c))) := by
  constructor
  · intro htwo
    cases hs : segLoop ⟨-1, -1, -1, -1⟩ m.segmentationHypotheses with
    | error e =>
      cases e with
      | mismatch nm =>
        exact ⟨nm, computeCounts_error_lift m (by unfold computeCounts; rw [hs])⟩
    | ok acc =>
      cases hcl : c with
      | link =>
        simp only [catLensOf, hcl] at htwo
        obtain ⟨a, ha, b, hb, hna, hnb, hab⟩ := htwo
        have hlk := linkLoop_distinct hab m.linkingHypotheses ha hb (-1)
        refine ⟨"Links", computeCounts_error_lift m ?_⟩
        unfold computeCounts
        rw [hs, hlk]
      | det =>
        subst hcl
        exact (seg_twoDistinct_not_ok m .det (by simp) htwo hs).elim
      | div =>
        subst hcl
        exact (seg_twoDistinct_not_ok m .div (by simp) htwo hs).elim
      | app =>
        subst hcl
        exact (seg_twoDistinct_not_ok m .app (by simp) htwo hs).elim
      | dis =>
        subst hcl
        exact (seg_twoDistinct_not_ok m .dis (by simp) htwo hs).elim
  · intro htwo hcons
    cases hc : c with
    | link =>
      subst hc
      have hdet := hcons .det (by simp)
      have hdiv := hcons .div (by simp)
      have happ := hcons .app (by simp)
      have hdis := hcons .dis (by simp)
      simp only [ConsistentCat] at hdet hdiv happ hdis
      have hseg := segLoop_agree m hdet hdiv happ hdis
      simp only [catLensOf] at htwo
      obtain ⟨a, ha, b, hb, hna, hnb, hab⟩ := htwo
      have hlk := linkLoop_distinct hab m.linkingHypotheses ha hb (-1)
      refine computeCounts_error_lift m ?_
      unfold computeCounts
      rw [hseg, hlk]
      rfl
    | det =>
      subst hc
      cases hs : segLoop ⟨-1, -1, -1, -1⟩ m.segmentationHypotheses with
      | ok acc => exact absurd hs (fun hs =>
          seg_twoDistinct_not_ok m .det (by simp) htwo hs)
      | error e =>
        cases e with
        | mismatch nm =>
          have hnm := seg_error_name m .det (by simp) hcons hs
          subst hnm
          exact computeCounts_error_lift m (by unfold computeCounts; rw [hs])
    | div =>
      subst hc
      cases hs : segLoop ⟨-1, -1, -1, -1⟩ m.segmentationHypotheses with
      | ok acc => exact absurd hs (fun hs =>
          seg_twoDistinct_not_ok m .div (by simp) htwo hs)
      | error e =>
        cases e with
        | mismatch nm =>
          have hnm := seg_error_name m .div (by simp) hcons hs
          subst hnm
          exact computeCounts_error_lift m (by unfold computeCounts; rw [hs])
    | app =>
      subst hc
      cases hs : segLoop ⟨-1, -1, -1, -1⟩ m.segmentationHypotheses with
      | ok acc => exact absurd hs (fun hs =>
          seg_twoDistinct_not_ok m .app (by simp) htwo hs)
      | error e =>
        cases e with
        | mismatch nm =>
          have hnm := seg_error_name m .app (by simp) hcons hs
          subst hnm
          exact computeCounts_error_lift m (by unfold computeCounts; rw [hs])
    | dis =>
      subst hc
      cases hs : segLoop ⟨-1, -1, -1, -1⟩ m.segmentationHypotheses with
      | ok acc => exact absurd hs (fun hs =>
          seg_twoDistinct_not_ok m .dis (by simp) htwo hs)
      | error e =>
        cases e with
        | mismatch nm =>
          have hnm := seg_error_name m .dis (by simp) hcons hs
          subst hnm
          exact computeCounts_error_lift m (by unfold computeCounts; rw [hs])

/-- A model whose two detection variables have distinct positive feature
counts (3 and 4) while every other category is consistent. -/
def exampleM7 : Model :=
  { segmentationHypotheses :=
      [(1, { detection := mkVar 3 0 }), (2, { detection := mkVar 4 1 })],
    linkingHypotheses := [],
    exclusionConstraints := [] }

/-- Witness for C7 on `exampleM7`: the detection counts 3 and 4 disagree
and `computeNumWeights` fails with the error naming "Detections". -/
theorem claim_C7_feature_mismatch_error_witness :
    TwoDistinctNonzero (catLensOf exampleM7 WCat.det) ∧
    computeNumWeights exampleM7 = .error (.mismatch (catNameOf WCat.det)) :=
  ⟨by decide,
   (claim_C7_feature_mismatch_error exampleM7 WCat.det).2 (by decide)
     (by
       intro c2 hne
       cases c2 with
       | det => exact absurd rfl hne
       | div => exact (by decide : AgreesNonzero (divLens exampleM7))
       | app => exact (by decide : AgreesNonzero (appLens exampleM7))
       | dis => exact (by decide : AgreesNonzero (disLens exampleM7))
       | link => exact (by decide : AllEqual (linkLens exampleM7)))⟩

/-- C2 (amended): the list returned by `Model::getWeightDescriptions`
has its entries in the category order {detection, division, appearance,
disappearance, link} — each block split into state 0 then state 1 —
which is NOT the weight-index layout order {link, detection, division,
appearance, disappearance} of `Model::initializeOpenGMModel`; position
`i` holds exactly the string `descEntry c i` of that detection-first
order. -/
theorem claim_C2_description_positions (m : Model) {c : FeatureCounts}
    (h : computeCounts m = .ok c) :
    ∃ l, getWeightDescriptions m = .ok l ∧
      l.length = 2 * (c.det + c.div + c.app + c.dis + c.link) ∧
      ∀ i, i < l.length → l[i]? = some (descEntry c i) := by
  refine ⟨addVariableWeightDescriptions c.det "Detection" ++
      addVariableWeightDescriptions c.div "Division" ++
      addVariableWeightDescriptions c.app "Appearance" ++
      addVariableWeightDescriptions c.dis "Disappearance" ++
      addVariableWeightDescriptions c.link "Link", ?_, ?_, ?_⟩
  · unfold getWeightDescriptions
    rw [h]
    rfl
  · simp only [List.length_append, addW_length]
    omega
  · intro i hi
    simp only [List.length_append, addW_length] at hi
    rw [concat5_getElem]
    simp only [addW_length]
    unfold descEntry
    split_ifs with h1 h2 h3 h4
    · exact addW_getElem _ _ _ h1
    · exact addW_getElem _ _ _ h2
    · exact addW_getElem _ _ _ h3
    · exact addW_getElem _ _ _ h4
    · exact addW_getElem _ _ _ (by omega)

/-- Witness for the amended C2 on `exampleG0`. -/
theorem claim_C2_description_positions_witness :
    computeCounts exampleG0 = .ok ⟨1, 0, 0, 0, 1⟩ ∧
    (∃ l, getWeightDescriptions exampleG0 = .ok l ∧
      l.length = 2 * (1 + 0 + 0 + 0 + 1) ∧
      ∀ i, i < l.length →
        l[i]? = some (descEntry ⟨1, 0, 0, 0, 1⟩ i)) :=
  ⟨rfl, claim_C2_description_positions exampleG0 rfl⟩

/-- C2 (counterexample): on `exampleG0` (one detection feature, one link
feature) the weight-index layout is link-first while the returned
descriptions are detection-first, so the description list is not in the
layout's category order and the description at position 0 does not
describe weight 0. -/
theorem claim_C2_counterexample :
    computeCounts exampleG0 = .ok ⟨1, 0, 0, 0, 1⟩ ∧
    weightLayout ⟨1, 0, 0, 0, 1⟩ =
      [WCat.link, WCat.link, WCat.det, WCat.det] ∧
    getWeightDescriptions exampleG0 =
      .ok ["Detection = 0 - feature 0", "Detection = 1 - feature 0",
           "Link = 0 - feature 0", "Link = 1 - feature 0"] ∧
    specWeightDescriptions ⟨1, 0, 0, 0, 1⟩ =
      ["Link = 0 - feature 0", "Link = 1 - feature 0",
       "Detection = 0 - feature 0", "Detection = 1 - feature 0"] ∧
    decide (["Detection = 0 - feature 0", "Detection = 1 - feature 0",
             "Link = 0 - feature 0", "Link = 1 - feature 0"] =
            specWeightDescriptions ⟨1, 0, 0, 0, 1⟩) = false :=
  ⟨rfl, rfl, rfl, rfl, by decide⟩

/-! ### Lemmas about ground-truth reconstruction -/

theorem setSol_ne {sol : Solution} {i : Int} {v : Nat} {j : Int} (h : j ≠ i) :
    setSol sol i v j = sol j := by
  unfold setSol
  rw [if_neg h]

theorem setSol_self {sol : Solution} {i : Int} {v : Nat} :
    setSol sol i v i = v := by
  unfold setSol
  rw [if_pos rfl]

/-- The duplicate-use branch of the first pass is dead code: the
found-link part always succeeds, because the branch that would raise
`sourceUsedMoreThanOnce` re-tests the exact condition that its
enclosing else-branch just refuted. -/
theorem pass1Go_ok (m : Model) (sol : Solution) (ann : GTLink)
    (hyp : LinkingHypothesis) : ∃ s2, pass1Go m sol ann hyp = .ok s2 := by
  unfold pass1Go
  by_cases hc : setSol sol hyp.var.openGMVariableId 1
      (getSeg m ann.srcId).detection.openGMVariableId = 1
  · exact ⟨_, by rw [if_pos hc]⟩
  · exact ⟨_, by rw [if_neg hc, if_neg hc]⟩

theorem pass1Step_error {m : Model} {s : Solution} {a : GTLink} {e : GTError}
    (h : pass1Step m s a = .error e) :
    e = .cannotFindLink a.srcId a.destId ∧ a.value = true ∧
    lookupLink m a.srcId a.destId = none := by
  unfold pass1Step at h
  by_cases hv : a.value
  · rw [if_pos hv] at h
    cases hl : lookupLink m a.srcId a.destId with
    | none =>
      rw [hl] at h
      simp only at h
      injection h with h
      exact ⟨h.symm, hv, rfl⟩
    | some hyp =>
      rw [hl] at h
      simp only at h
      obtain ⟨s2, hs2⟩ := pass1Go_ok m s a hyp
      rw [hs2] at h
      simp at h
  · rw [if_neg hv] at h
    simp at h

theorem pass1Step_false {m : Model} {s : Solution} {a : GTLink}
    (hv : a.value = false) : pass1Step m s a = .ok s := by
  unfold pass1Step
  rw [if_neg (by simp [hv])]

theorem pass1_error_shape :
    ∀ (anns : List GTLink) {m : Model} {s : Solution} {e : GTError},
      pass1 m s anns = .error e →
      ∃ a ∈ anns, a.value = true ∧ lookupLink m a.srcId a.destId = none ∧
        e = .cannotFindLink a.srcId a.destId := by
  intro anns
  induction anns with
  | nil => intro m s e h; simp [pass1] at h
  | cons a rest ih =>
    intro m s e h
    unfold pass1 at h
    cases hstep : pass1Step m s a with
    | error e1 =>
      rw [hstep] at h
      simp only at h
      injection h with h
      subst h
      obtain ⟨he, hv, hl⟩ := pass1Step_error hstep
      exact ⟨a, List.mem_cons_self _ _, hv, hl, he⟩
    | ok s2 =>
      rw [hstep] at h
      obtain ⟨b, hb, hv, hl, he⟩ := ih h
      exact ⟨b, List.mem_cons_of_mem _ hb, hv, hl, he⟩

theorem pass1_ok_good :
    ∀ (anns : List GTLink) {m : Model} {s s2 : Solution},
      pass1 m s anns = .ok s2 →
      ∀ a ∈ anns, a.value = true → (lookupLink m a.srcId a.destId).isSome := by
  intro anns
  induction anns with
  | nil => intro m s s2 _ a ha; cases ha
  | cons b rest ih =>
    intro m s s2 h a ha hv
    unfold pass1 at h
    cases hstep : pass1Step m s b with
    | error e1 => rw [hstep] at h; simp at h
    | ok s1 =>
      rw [hstep] at h
      rcases List.mem_cons.mp ha with hab | har
      · subst hab
        unfold pass1Step at hstep
        rw [if_pos hv] at hstep
        cases hl : lookupLink m a.srcId a.destId with
        | none => rw [hl] at hstep; simp at hstep
        | some hyp => simp [hl]
      · exact ih h a har hv

theorem pass1_error_of_bad :
    ∀ (anns : List GTLink) {m : Model} {s : Solution},
      (∃ a ∈ anns, a.value = true ∧ lookupLink m a.srcId a.destId = none) →
      ∃ x y, pass1 m s anns = .error (.cannotFindLink x y) := by
  intro anns m s hbad
  cases h : pass1 m s anns with
  | error e =>
    obtain ⟨a, _, _, _, he⟩ := pass1_error_shape anns h
    refine ⟨a.srcId, a.destId, ?_⟩
    rw [he]
  | ok s2 =>
    obtain ⟨a, ha, hv, hl⟩ := hbad
    have := pass1_ok_good anns h a ha hv
    rw [hl] at this
    simp at this

theorem closingStep_error {m : Model} {s : Solution}
    {p : Int × SegmentationHypothesis} {e : GTError}
    (h : closingStep m s p = .error e) :
    (e = .missingAppearance p.1 ∧ 0 < s p.2.detection.openGMVariableId ∧
      getNumActiveIncomingLinks m p.1 s = 0 ∧
      p.2.appearance.openGMVariableId = -1) ∨
    (e = .missingDisappearance p.1 ∧ 0 < s p.2.detection.openGMVariableId ∧
      p.2.disappearance.openGMVariableId = -1 ∧
      (getNumActiveOutgoingLinks m p.1 s = 0 ∨
        (getNumActiveIncomingLinks m p.1 s = 0 ∧
         p.2.appearance.openGMVariableId ≠ -1 ∧
         getNumActiveOutgoingLinks m p.1
           (setSol s p.2.appearance.openGMVariableId 1) = 0))) := by
  unfold closingStep at h
  by_cases hdet : 0 < s p.2.detection.openGMVariableId
  · rw [if_pos hdet] at h
    by_cases hinc : getNumActiveIncomingLinks m p.1 s = 0
    · rw [if_pos hinc] at h
      by_cases happ : p.2.appearance.openGMVariableId = -1
      · rw [if_pos happ] at h
        simp only at h
        injection h with h
        exact Or.inl ⟨h.symm, hdet, hinc, happ⟩
      · rw [if_neg happ] at h
        simp only at h
        by_cases hout : getNumActiveOutgoingLinks m p.1
            (setSol s p.2.appearance.openGMVariableId 1) = 0
        · rw [if_pos hout] at h
          by_cases hdis : p.2.disappearance.openGMVariableId = -1
          · rw [if_pos hdis] at h
            injection h with h
            exact Or.inr ⟨h.symm, hdet, hdis, Or.inr ⟨hinc, happ, hout⟩⟩
          · rw [if_neg hdis] at h
            simp at h
        · rw [if_neg hout] at h
          simp at h
    · rw [if_neg hinc] at h
      simp only at h
      by_cases hout : getNumActiveOutgoingLinks m p.1 s = 0
      · rw [if_pos hout] at h
        by_cases hdis : p.2.disappearance.openGMVariableId = -1
        · rw [if_pos hdis] at h
          injection h with h
          exact Or.inr ⟨h.symm, hdet, hdis, Or.inl hout⟩
        · rw [if_neg hdis] at h
          simp at h
      · rw [if_neg hout] at h
        simp at h
  · rw [if_neg hdet] at h
    simp at h

theorem closing_error_shape :
    ∀ (l : List (Int × SegmentationHypothesis)) {m : Model} {s : Solution}
      {e : GTError}, closing m s l = .error e →
      ∃ id, e = .missingAppearance id ∨ e = .missingDisappearance id := by
  intro l
  induction l with
  | nil => intro m s e h; simp [closing] at h
  | cons p rest ih =>
    intro m s e h
    unfold closing at h
    cases hstep : closingStep m s p with
    | error e1 =>
      rw [hstep] at h
      simp only at h
      injection h with h
      subst h
      rcases closingStep_error hstep with ⟨he, _⟩ | ⟨he, _⟩
      · exact ⟨p.1, Or.inl he⟩
      · exact ⟨p.1, Or.inr he⟩
    | ok s2 =>
      rw [hstep] at h
      exact ih h

theorem readGT_error_shape {m : Model} {anns : List GTLink} {e : GTError}
    (h : readGTfromJson m anns = .error e) :
    (∃ x y, e = .cannotFindLink x y) ∨
    (∃ id, e = .missingAppearance id ∨ e = .missingDisappearance id) := by
  unfold readGTfromJson at h
  cases hp : pass1 m initSolution anns with
  | error e1 =>
    rw [hp] at h
    simp only at h
    injection h with h
    subst h
    obtain ⟨a, _, _, _, he⟩ := pass1_error_shape anns hp
    exact Or.inl ⟨_, _, he⟩
  | ok s1 =>
    rw [hp] at h
    exact Or.inr (closing_error_shape _ h)

theorem pass1_filter (m : Model) :
    ∀ (anns : List GTLink) (s : Solution),
      pass1 m s (anns.filter fun a => a.value) = pass1 m s anns := by
  intro anns
  induction anns with
  | nil => intro s; rfl
  | cons a rest ih =>
    intro s
    by_cases hv : a.value
    · rw [List.filter_cons_of_pos (by simp [hv])]
      unfold pass1
      cases hstep : pass1Step m s a with
      | error e => rfl
      | ok s2 => exact ih s2
    · rw [List.filter_cons_of_neg (by simp [hv])]
      rw [ih s]
      conv_rhs => unfold pass1
      rw [pass1Step_false (by simp [hv])]

theorem pass2_filter (m : Model) :
    ∀ (anns : List GTLink) (s : Solution),
      pass2 m s (anns.filter fun a => a.value) = pass2 m s anns := by
  intro anns
  induction anns with
  | nil => intro s; rfl
  | cons a rest ih =>
    intro s
    by_cases hv : a.value
    · rw [List.filter_cons_of_pos (by simp [hv])]
      unfold pass2
      exact ih _
    · rw [List.filter_cons_of_neg (by simp [hv])]
      rw [ih s]
      conv_rhs => unfold pass2
      have : pass2Step m s a = s := by
        unfold pass2Step
        rw [if_neg (by simp [hv])]
      rw [this]

theorem readGT_filter (m : Model) (anns : List GTLink) :
    readGTfromJson m (anns.filter fun a => a.value) = readGTfromJson m anns := by
  unfold readGTfromJson
  rw [pass1_filter]
  cases hp : pass1 m initSolution anns with
  | error e => rfl
  | ok s1 =>
    dsimp only
    rw [pass2_filter]

/-! ### Claim theorems about ground-truth reconstruction -/

/-- The graph of the C1 failing input: hypotheses 1..4 with detection
ids 0..3, a division variable (id 4) and an appearance variable (id 5)
on hypothesis 1, disappearance variables (ids 6..8) on hypotheses 2..4,
and links (1,2), (1,3), (1,4) with variable ids 10..12. -/
def exampleG1 : Model :=
  { segmentationHypotheses :=
      [(1, segH 0 4 5 (-1)), (2, segH 1 (-1) (-1) 6),
       (3, segH 2 (-1) (-1) 7), (4, segH 3 (-1) (-1) 8)],
    linkingHypotheses :=
      [((1, 2), ⟨⟨[], 10⟩⟩), ((1, 3), ⟨⟨[], 11⟩⟩), ((1, 4), ⟨⟨[], 12⟩⟩)],
    exclusionConstraints := [] }

/-- Three active outgoing links from source 1: one more than the single
division case allows. -/
def tripleUseAnns : List GTLink := [⟨1, 2, true⟩, ⟨1, 3, true⟩, ⟨1, 4, true⟩]

/-- C1: the second activation of a source does mark its division
variable active, but reusing a source beyond the single division case
never raises the duplicate-use error: the `sourceUsedMoreThanOnce`
branch is unreachable (it re-tests the condition its else-branch just
refuted), so reconstruction of three active links out of source 1
succeeds — division (id 4) and detection (id 0) are active and all
three link variables (ids 10..12) are set — instead of failing with an
`InconsistentAnnotationError`. -/
theorem claim_C1_source_reuse_not_fatal :
    (∀ (m : Model) (anns : List GTLink),
      isSourceReuseError (readGTfromJson m anns) = false) ∧
    (readGTfromJson exampleG1 tripleUseAnns).toOption.map
      (fun s => (s 4, s 0, s 10, s 11, s 12)) = some (1, 1, 1, 1, 1) := by
  constructor
  · intro m anns
    cases h : readGTfromJson m anns with
    | ok s => rfl
    | error e =>
      rcases readGT_error_shape h with ⟨x, y, he⟩ | ⟨id, he | he⟩ <;>
        · subst he
          rfl
  · rfl

/-- The graph of the C4 failing input: hypothesis 1 has NO division
variable (sentinel id -1) but two outgoing links (1,2) and (1,3). -/
def exampleG2 : Model :=
  { segmentationHypotheses :=
      [(1, segH 0 (-1) 3 (-1)), (2, segH 1 (-1) (-1) 4),
       (3, segH 2 (-1) (-1) 5)],
    linkingHypotheses := [((1, 2), ⟨⟨[], 10⟩⟩), ((1, 3), ⟨⟨[], 11⟩⟩)],
    exclusionConstraints := [] }

/-- Two active links out of source 1. -/
def divisionAnns : List GTLink := [⟨1, 2, true⟩, ⟨1, 3, true⟩]

/-- C4: when the source of a second active link has no division
variable, `readGTfromJson` raises no error at all: it writes 1 through
the sentinel id -1 (in the C++ code an out-of-bounds
`solution[size_t(-1)]` vector write, i.e. undefined behavior) and
returns a Solution. -/
theorem claim_C4_missing_division_variable_unchecked :
    (getSeg exampleG2 1).division.openGMVariableId = -1 ∧
    (readGTfromJson exampleG2 divisionAnns).toOption.map
      (fun s => (s (-1), s 0, s 3)) = some (1, 1, 1) :=
  ⟨rfl, rfl⟩

/-- C8: reconstruction fails with the "Cannot find link to annotate"
reference error exactly when some `value = true` annotation names a
`(srcId, destId)` pair with no registered linking hypothesis;
annotations whose pair is registered never trigger it. -/
theorem claim_C8_unregistered_link_reference_error (m : Model)
    (anns : List GTLink) :
    isRefError (readGTfromJson m anns) = true ↔
      ∃ a ∈ anns, a.value = true ∧ lookupLink m a.srcId a.destId = none := by
  constructor
  · intro h
    unfold readGTfromJson at h
    cases hp : pass1 m initSolution anns with
    | error e =>
      rw [hp] at h
      obtain ⟨a, ha, hv, hl, _⟩ := pass1_error_shape anns hp
      exact ⟨a, ha, hv, hl⟩
    | ok s1 =>
      rw [hp] at h
      simp only at h
      cases hc : closing m (pass2 m s1 anns) m.segmentationHypotheses with
      | ok s => rw [hc] at h; simp [isRefError] at h
      | error e =>
        rw [hc] at h
        obtain ⟨id, he | he⟩ := closing_error_shape _ hc <;>
          · subst he
            simp [isRefError] at h
  · intro hbad
    obtain ⟨x, y, hp⟩ := pass1_error_of_bad anns hbad
    unfold readGTfromJson
    rw [hp]
    rfl

/-- C10: reconstruction depends only on the `value = true` annotations:
two annotation lists whose true-valued entries coincide (false entries
added or removed anywhere) reconstruct the very same result. -/
theorem claim_C10_false_annotations_no_effect (m : Model)
    (annsA annsB : List GTLink)
    (h : annsA.filter (fun a => a.value) = annsB.filter (fun a => a.value)) :
    readGTfromJson m annsA = readGTfromJson m annsB := by
  rw [← readGT_filter m annsA, ← readGT_filter m annsB, h]

/-- The C1 annotation list with false-valued entries interspersed. -/
def tripleUseAnnsPadded : List GTLink :=
  [⟨9, 9, false⟩, ⟨1, 2, true⟩, ⟨1, 3, true⟩, ⟨2, 3, false⟩, ⟨1, 4, true⟩]

/-- Witness for C10: inserting false annotations (9,9) and (2,3) into
the C1 annotation list leaves reconstruction unchanged. -/
theorem claim_C10_false_annotations_no_effect_witness :
    tripleUseAnnsPadded.filter (fun a => a.value) =
      tripleUseAnns.filter (fun a => a.value) ∧
    readGTfromJson exampleG1 tripleUseAnnsPadded =
      readGTfromJson exampleG1 tripleUseAnns :=
  ⟨by decide,
   claim_C10_false_annotations_no_effect exampleG1 tripleUseAnnsPadded
     tripleUseAnns (by decide)⟩

/-! ### Claim theorem about solution verification -/

theorem verify_fold {α : Type} (p : α → Bool) (msg : String) :
    ∀ (l : List α) (acc : Bool × List String),
      (l.foldl (fun acc x => if p x then acc else (false, acc.2 ++ [msg]))
        acc).1 = (acc.1 && l.all p) ∧
      (l.foldl (fun acc x => if p x then acc else (false, acc.2 ++ [msg]))
        acc).2.length =
        acc.2.length + (l.filter (fun x => !p x)).length := by
  intro l
  induction l with
  | nil => intro acc; simp
  | cons x rest ih =>
    intro acc
    by_cases hx : p x
    · simp only [List.foldl_cons, if_pos hx]
      obtain ⟨ih1, ih2⟩ := ih acc
      constructor
      · rw [ih1]
        simp [hx]
      · rw [ih2]
        simp [hx]
    · simp only [List.foldl_cons, if_neg hx]
      obtain ⟨ih1, ih2⟩ := ih (false, acc.2 ++ [msg])
      constructor
      · rw [ih1]
        simp [hx]
      · rw [ih2]
        simp [hx]
        omega

/-- C9: `Model::verifySolution` returns true exactly when every
exclusion constraint's check and every segmentation hypothesis's
per-node conservation check passes (the two delegated checks live
outside `model.cpp` and are arbitrary here), and it logs one violation
line per failing check — every constraint and every hypothesis is
evaluated even after a violation was already found. -/
theorem claim_C9_verify_accumulates_all (m : Model)
    (excCheck : ExclusionConstraint → Solution → Bool)
    (hypCheck : SegmentationHypothesis → Solution → Bool) (sol : Solution) :
    ((verifySolution m excCheck hypCheck sol).1 = true ↔
      ((∀ e ∈ m.exclusionConstraints, excCheck e sol = true) ∧
       (∀ p ∈ m.segmentationHypotheses, hypCheck p.2 sol = true))) ∧
    (verifySolution m excCheck hypCheck sol).2.length =
      (m.exclusionConstraints.filter (fun e => !excCheck e sol)).length +
      (m.segmentationHypotheses.filter (fun p => !hypCheck p.2 sol)).length := by
  unfold verifySolution
  obtain ⟨h11, h12⟩ := verify_fold (fun e => excCheck e sol)
    "\tFound violated exclusion constraint " m.exclusionConstraints (true, [])
  obtain ⟨h21, h22⟩ := verify_fold (fun p => hypCheck p.2 sol)
    "\tFound violated flow conservation constraint " m.segmentationHypotheses
    (m.exclusionConstraints.foldl
      (fun acc exc => if excCheck exc sol then acc
        else (false, acc.2 ++ ["\tFound violated exclusion constraint "]))
      (true, []))
  constructor
  · rw [h21, h11]
    simp [List.all_eq_true, Bool.and_eq_true]
  · rw [h22, h12]
    simp

/-! ### Stability lemmas for the closing pass -/

instance decWfEntry (m : Model) (p : Int × SegmentationHypothesis) :
    Decidable (WfEntry m p) :=
  inferInstanceAs (Decidable (_ ∧ _))

instance decIdsWellFormed (m : Model) : Decidable (IdsWellFormed m) :=
  inferInstanceAs (Decidable (∀ p ∈ m.segmentationHypotheses, WfEntry m p))

instance decViolApp (m : Model) (p : Int × SegmentationHypothesis)
    (sol : Solution) : Decidable (ViolApp m p sol) :=
  inferInstanceAs (Decidable (_ ∧ _ ∧ _))

instance decViolDis (m : Model) (p : Int × SegmentationHypothesis)
    (sol : Solution) : Decidable (ViolDis m p sol) :=
  inferInstanceAs (Decidable (_ ∧ _ ∧ _))

theorem setSol_one_mono {sol : Solution} {i j : Int} (h : sol j = 1) :
    setSol sol i 1 j = 1 := by
  unfold setSol
  split
  · rfl
  · exact h

theorem inc_congr {m : Model} {id : Int} {s1 s2 : Solution}
    (h : ∀ L ∈ m.linkingHypotheses,
      s1 L.2.var.openGMVariableId = s2 L.2.var.openGMVariableId) :
    getNumActiveIncomingLinks m id s1 = getNumActiveIncomingLinks m id s2 := by
  unfold getNumActiveIncomingLinks
  congr 1
  apply List.filter_congr
  intro p hp
  rw [h p hp]

theorem out_congr {m : Model} {id : Int} {s1 s2 : Solution}
    (h : ∀ L ∈ m.linkingHypotheses,
      s1 L.2.var.openGMVariableId = s2 L.2.var.openGMVariableId) :
    getNumActiveOutgoingLinks m id s1 = getNumActiveOutgoingLinks m id s2 := by
  unfold getNumActiveOutgoingLinks
  congr 1
  apply List.filter_congr
  intro p hp
  rw [h p hp]

/-- A successful `closingStep` only writes at the hypothesis's assigned
appearance and disappearance ids. -/
theorem closingStep_agree {m : Model} {s s2 : Solution}
    {p : Int × SegmentationHypothesis} (h : closingStep m s p = .ok s2)
    (j : Int)
    (hja : p.2.appearance.openGMVariableId ≠ -1 →
      j ≠ p.2.appearance.openGMVariableId)
    (hjd : p.2.disappearance.openGMVariableId ≠ -1 →
      j ≠ p.2.disappearance.openGMVariableId) :
    s2 j = s j := by
  unfold closingStep at h
  by_cases hdet : 0 < s p.2.detection.openGMVariableId
  · rw [if_pos hdet] at h
    by_cases hinc : getNumActiveIncomingLinks m p.1 s = 0
    · rw [if_pos hinc] at h
      by_cases happ : p.2.appearance.openGMVariableId = -1
      · rw [if_pos happ] at h
        simp at h
      · rw [if_neg happ] at h
        simp only at h
        by_cases hout : getNumActiveOutgoingLinks m p.1
            (setSol s p.2.appearance.openGMVariableId 1) = 0
        · rw [if_pos hout] at h
          by_cases hdis : p.2.disappearance.openGMVariableId = -1
          · rw [if_pos hdis] at h
            simp at h
          · rw [if_neg hdis] at h
            injection h with h
            subst h
            rw [setSol_ne (hjd hdis), setSol_ne (hja happ)]
        · rw [if_neg hout] at h
          injection h with h
          subst h
          rw [setSol_ne (hja happ)]
    · rw [if_neg hinc] at h
      simp only at h
      by_cases hout : getNumActiveOutgoingLinks m p.1 s = 0
      · rw [if_pos hout] at h
        by_cases hdis : p.2.disappearance.openGMVariableId = -1
        · rw [if_pos hdis] at h
          simp at h
        · rw [if_neg hdis] at h
          injection h with h
          subst h
          rw [setSol_ne (hjd hdis)]
      · rw [if_neg hout] at h
        injection h with h
        subst h
        rfl
  · rw [if_neg hdet] at h
    injection h with h
    subst h
    rfl

/-- A successful `closingStep` only ever writes the value 1. -/
theorem closingStep_mono {m : Model} {s s2 : Solution}
    {p : Int × SegmentationHypothesis} (h : closingStep m s p = .ok s2)
    (j : Int) (hj : s j = 1) : s2 j = 1 := by
  unfold closingStep at h
  by_cases hdet : 0 < s p.2.detection.openGMVariableId
  · rw [if_pos hdet] at h
    by_cases hinc : getNumActiveIncomingLinks m p.1 s = 0
    · rw [if_pos hinc] at h
      by_cases happ : p.2.appearance.openGMVariableId = -1
      · rw [if_pos happ] at h
        simp at h
      · rw [if_neg happ] at h
        simp only at h
        by_cases hout : getNumActiveOutgoingLinks m p.1
            (setSol s p.2.appearance.openGMVariableId 1) = 0
        · rw [if_pos hout] at h
          by_cases hdis : p.2.disappearance.openGMVariableId = -1
          · rw [if_pos hdis] at h
            simp at h
          · rw [if_neg hdis] at h
            injection h with h
            subst h
            exact setSol_one_mono (setSol_one_mono hj)
        · rw [if_neg hout] at h
          injection h with h
          subst h
          exact setSol_one_mono hj
    · rw [if_neg hinc] at h
      simp only at h
      by_cases hout : getNumActiveOutgoingLinks m p.1 s = 0
      · rw [if_pos hout] at h
        by_cases hdis : p.2.disappearance.openGMVariableId = -1
        · rw [if_pos hdis] at h
          simp at h
        · rw [if_neg hdis] at h
          injection h with h
          subst h
          exact setSol_one_mono hj
      · rw [if_neg hout] at h
        injection h with h
        subst h
        exact hj
  · rw [if_neg hdet] at h
    injection h with h
    subst h
    exact hj

/-- A wf entry's writes land outside all detection and link variable
ids. -/
theorem closingStep_agree_ids {m : Model} {s s2 : Solution}
    {p : Int × SegmentationHypothesis} (hwf : WfEntry m p)
    (h : closingStep m s p = .ok s2) (j : Int)
    (hj : j ∈ detIds m ∨ j ∈ linkIds m) : s2 j = s j := by
  refine closingStep_agree h j ?_ ?_
  · intro hne
    rcases hwf.1 with ha | ⟨had, hal⟩
    · exact absurd ha hne
    · rcases hj with hj | hj
      · exact fun hjeq => had (hjeq ▸ hj)
      · exact fun hjeq => hal (hjeq ▸ hj)
  · intro hne
    rcases hwf.2 with ha | ⟨had, hal⟩
    · exact absurd ha hne
    · rcases hj with hj | hj
      · exact fun hjeq => had (hjeq ▸ hj)
      · exact fun hjeq => hal (hjeq ▸ hj)

theorem closing_agree_ids :
    ∀ (l : List (Int × SegmentationHypothesis)) {m : Model} {s sol : Solution},
      (∀ p ∈ l, WfEntry m p) → closing m s l = .ok sol →
      ∀ j, (j ∈ detIds m ∨ j ∈ linkIds m) → sol j = s j := by
  intro l
  induction l with
  | nil =>
    intro m s sol _ h j _
    unfold closing at h
    injection h with h
    rw [h]
  | cons p rest ih =>
    intro m s sol hwf h j hj
    unfold closing at h
    cases hstep : closingStep m s p with
    | error e => rw [hstep] at h; simp at h
    | ok s1 =>
      rw [hstep] at h
      rw [ih (fun q hq => hwf q (List.mem_cons_of_mem _ hq)) h j hj]
      exact closingStep_agree_ids (hwf p (List.mem_cons_self _ _)) hstep j hj

theorem closing_mono :
    ∀ (l : List (Int × SegmentationHypothesis)) {m : Model} {s sol : Solution},
      closing m s l = .ok sol → ∀ j, s j = 1 → sol j = 1 := by
  intro l
  induction l with
  | nil =>
    intro m s sol h j hj
    unfold closing at h
    injection h with h
    rw [← h]
    exact hj
  | cons p rest ih =>
    intro m s sol h j hj
    unfold closing at h
    cases hstep : closingStep m s p with
    | error e => rw [hstep] at h; simp at h
    | ok s1 =>
      rw [hstep] at h
      exact ih h j (closingStep_mono hstep j hj)

/-- What a successful `closingStep` guarantees for its own hypothesis,
stated against the pre-step solution (counts are link-id reads, which
the step leaves untouched for a wf entry). -/
theorem closingStep_ok_facts {m : Model} {s s2 : Solution}
    {p : Int × SegmentationHypothesis} (hwf : WfEntry m p)
    (h : closingStep m s p = .ok s2)
    (hdet : 0 < s p.2.detection.openGMVariableId) :
    (getNumActiveIncomingLinks m p.1 s = 0 →
      p.2.appearance.openGMVariableId ≠ -1 ∧
      s2 p.2.appearance.openGMVariableId = 1) ∧
    (getNumActiveOutgoingLinks m p.1 s = 0 →
      p.2.disappearance.openGMVariableId ≠ -1 ∧
      s2 p.2.disappearance.openGMVariableId = 1) := by
  unfold closingStep at h
  rw [if_pos hdet] at h
  by_cases hinc : getNumActiveIncomingLinks m p.1 s = 0
  · rw [if_pos hinc] at h
    by_cases happ : p.2.appearance.openGMVariableId = -1
    · rw [if_pos happ] at h
      simp at h
    · rw [if_neg happ] at h
      simp only at h
      have hmid : ∀ L ∈ m.linkingHypotheses,
          (setSol s p.2.appearance.openGMVariableId 1)
            L.2.var.openGMVariableId = s L.2.var.openGMVariableId := by
        intro L hL
        refine setSol_ne fun hjeq => ?_
        rcases hwf.1 with ha | ⟨_, hal⟩
        · exact happ ha
        · exact hal (hjeq ▸ List.mem_map_of_mem _ hL)
      by_cases hout : getNumActiveOutgoingLinks m p.1
          (setSol s p.2.appearance.openGMVariableId 1) = 0
      · rw [if_pos hout] at h
        by_cases hdis : p.2.disappearance.openGMVariableId = -1
        · rw [if_pos hdis] at h
          simp at h
        · rw [if_neg hdis] at h
          injection h with h
          subst h
          refine ⟨fun _ => ⟨happ, setSol_one_mono setSol_self⟩,
                  fun _ => ⟨hdis, setSol_self⟩⟩
      · rw [if_neg hout] at h
        injection h with h
        subst h
        refine ⟨fun _ => ⟨happ, setSol_self⟩, fun houts => ?_⟩
        rw [out_congr hmid] at hout
        exact absurd houts hout
  · rw [if_neg hinc] at h
    simp only at h
    by_cases hout : getNumActiveOutgoingLinks m p.1 s = 0
    · rw [if_pos hout] at h
      by_cases hdis : p.2.disappearance.openGMVariableId = -1
      · rw [if_pos hdis] at h
        simp at h
      · rw [if_neg hdis] at h
        injection h with h
        subst h
        exact ⟨fun hincs => absurd hincs hinc, fun _ => ⟨hdis, setSol_self⟩⟩
    · rw [if_neg hout] at h
      injection h with h
      subst h
      exact ⟨fun hincs => absurd hincs hinc, fun houts => absurd houts hout⟩

theorem closingStep_violApp_error {m : Model} {s : Solution}
    {p : Int × SegmentationHypothesis} (hva : ViolApp m p s) :
    closingStep m s p = .error (.missingAppearance p.1) := by
  obtain ⟨hdet, hinc, happ⟩ := hva
  unfold closingStep
  rw [if_pos hdet, if_pos hinc, if_pos happ]

theorem closingStep_violDis_not_ok {m : Model} {s s2 : Solution}
    {p : Int × SegmentationHypothesis} (hwf : WfEntry m p)
    (hvd : ViolDis m p s) (h : closingStep m s p = .ok s2) : False := by
  obtain ⟨hdet, hout, hdis⟩ := hvd
  unfold closingStep at h
  rw [if_pos hdet] at h
  by_cases hinc : getNumActiveIncomingLinks m p.1 s = 0
  · rw [if_pos hinc] at h
    by_cases happ : p.2.appearance.openGMVariableId = -1
    · rw [if_pos happ] at h
      simp at h
    · rw [if_neg happ] at h
      simp only at h
      have hmid : ∀ L ∈ m.linkingHypotheses,
          (setSol s p.2.appearance.openGMVariableId 1)
            L.2.var.openGMVariableId = s L.2.var.openGMVariableId := by
        intro L hL
        refine setSol_ne fun hjeq => ?_
        rcases hwf.1 with ha | ⟨_, hal⟩
        · exact happ ha
        · exact hal (hjeq ▸ List.mem_map_of_mem _ hL)
      rw [if_pos (by rw [out_congr hmid]; exact hout), if_pos hdis] at h
      simp at h
  · rw [if_neg hinc] at h
    simp only at h
    rw [if_pos hout, if_pos hdis] at h
    simp at h

theorem violApp_transfer {m : Model} {p : Int × SegmentationHypothesis}
    {sa sb : Solution}
    (hd : sa p.2.detection.openGMVariableId = sb p.2.detection.openGMVariableId)
    (hl : ∀ L ∈ m.linkingHypotheses,
      sa L.2.var.openGMVariableId = sb L.2.var.openGMVariableId) :
    ViolApp m p sa ↔ ViolApp m p sb := by
  unfold ViolApp
  rw [hd, inc_congr hl]

theorem violDis_transfer {m : Model} {p : Int × SegmentationHypothesis}
    {sa sb : Solution}
    (hd : sa p.2.detection.openGMVariableId = sb p.2.detection.openGMVariableId)
    (hl : ∀ L ∈ m.linkingHypotheses,
      sa L.2.var.openGMVariableId = sb L.2.var.openGMVariableId) :
    ViolDis m p sa ↔ ViolDis m p sb := by
  unfold ViolDis
  rw [hd, out_congr hl]

/-- A successful closing pass establishes the appearance/disappearance
invariant at its final solution, for every processed hypothesis. -/
theorem closing_ok_invariant :
    ∀ (l : List (Int × SegmentationHypothesis)) {m : Model} {s sol : Solution},
      (∀ p ∈ l, WfEntry m p) → (∀ p ∈ l, p ∈ m.segmentationHypotheses) →
      closing m s l = .ok sol →
      ∀ p ∈ l, 0 < sol p.2.detection.openGMVariableId →
        ((getNumActiveIncomingLinks m p.1 sol = 0 →
           p.2.appearance.openGMVariableId ≠ -1 ∧
           sol p.2.appearance.openGMVariableId = 1) ∧
         (getNumActiveOutgoingLinks m p.1 sol = 0 →
           p.2.disappearance.openGMVariableId ≠ -1 ∧
           sol p.2.disappearance.openGMVariableId = 1)) := by
  intro l
  induction l with
  | nil => intro m s sol _ _ _ p hp; cases hp
  | cons p0 rest ih =>
    intro m s sol hwf hsub h p hp hdet
    unfold closing at h
    cases hstep : closingStep m s p0 with
    | error e => rw [hstep] at h; simp at h
    | ok s1 =>
      rw [hstep] at h
      have hwf0 := hwf p0 (List.mem_cons_self _ _)
      have restwf := fun q hq => hwf q (List.mem_cons_of_mem _ hq)
      have restsub := fun q hq => hsub q (List.mem_cons_of_mem _ hq)
      rcases List.mem_cons.mp hp with hpp | hpr
      · subst hpp
        have hmem0 := hsub p (List.mem_cons_self _ _)
        have hdid : p.2.detection.openGMVariableId ∈ detIds m :=
          List.mem_map_of_mem _ hmem0
        have hlinkeq : ∀ L ∈ m.linkingHypotheses,
            sol L.2.var.openGMVariableId = s L.2.var.openGMVariableId := by
          intro L hL
          have hlid : L.2.var.openGMVariableId ∈ linkIds m :=
            List.mem_map_of_mem _ hL
          rw [closing_agree_ids rest restwf h _ (Or.inr hlid),
              closingStep_agree_ids hwf0 hstep _ (Or.inr hlid)]
        have hdeteq : sol p.2.detection.openGMVariableId =
            s p.2.detection.openGMVariableId := by
          rw [closing_agree_ids rest restwf h _ (Or.inl hdid),
              closingStep_agree_ids hwf0 hstep _ (Or.inl hdid)]
        have hdet0 : 0 < s p.2.detection.openGMVariableId := hdeteq ▸ hdet
        obtain ⟨hfa, hfd⟩ := closingStep_ok_facts hwf0 hstep hdet0
        constructor
        · intro hincsol
          rw [inc_congr hlinkeq] at hincsol
          obtain ⟨hne, h1⟩ := hfa hincsol
          exact ⟨hne, closing_mono rest h _ h1⟩
        · intro houtsol
          rw [out_congr hlinkeq] at houtsol
          obtain ⟨hne, h1⟩ := hfd houtsol
          exact ⟨hne, closing_mono rest h _ h1⟩
      · exact ih restwf restsub h p hpr hdet

/-- A closing pass started on a solution that violates the
appearance/disappearance invariant fails with a
missing-appearance/disappearance error identifying a violating
hypothesis. -/
theorem closing_viol_error :
    ∀ (l : List (Int × SegmentationHypothesis)) {m : Model} {s : Solution},
      (∀ p ∈ l, WfEntry m p) → (∀ p ∈ l, p ∈ m.segmentationHypotheses) →
      (∃ p ∈ l, ViolApp m p s ∨ ViolDis m p s) →
      ∃ q ∈ l, ∃ e, closing m s l = .error e ∧
        ((e = .missingAppearance q.1 ∧ ViolApp m q s) ∨
         (e = .missingDisappearance q.1 ∧ ViolDis m q s)) := by
  intro l
  induction l with
  | nil => intro m s _ _ hex; obtain ⟨p, hp, _⟩ := hex; cases hp
  | cons p0 rest ih =>
    intro m s hwf hsub hex
    have hwf0 := hwf p0 (List.mem_cons_self _ _)
    have restwf := fun q hq => hwf q (List.mem_cons_of_mem _ hq)
    have restsub := fun q hq => hsub q (List.mem_cons_of_mem _ hq)
    cases hstep : closingStep m s p0 with
    | error e =>
      have hcl : closing m s (p0 :: rest) = .error e := by
        unfold closing
        rw [hstep]
      rcases closingStep_error hstep with
        ⟨he, hdet, hinc, happ⟩ | ⟨he, hdet, hdis, hcase⟩
      · exact ⟨p0, List.mem_cons_self _ _, e, hcl,
          Or.inl ⟨he, hdet, hinc, happ⟩⟩
      · have hout : getNumActiveOutgoingLinks m p0.1 s = 0 := by
          rcases hcase with h0 | ⟨hinc0, happne, houtmid⟩
          · exact h0
          · have hmid : ∀ L ∈ m.linkingHypotheses,
                (setSol s p0.2.appearance.openGMVariableId 1)
                  L.2.var.openGMVariableId = s L.2.var.openGMVariableId := by
              intro L hL
              refine setSol_ne fun hjeq => ?_
              rcases hwf0.1 with ha | ⟨_, hal⟩
              · exact happne ha
              · exact hal (hjeq ▸ List.mem_map_of_mem _ hL)
            rw [out_congr hmid] at houtmid
            exact houtmid
        exact ⟨p0, List.mem_cons_self _ _, e, hcl,
          Or.inr ⟨he, hdet, hout, hdis⟩⟩
    | ok s1 =>
      have hcl : closing m s (p0 :: rest) = closing m s1 rest := by
        conv_lhs => unfold closing
        rw [hstep]
      obtain ⟨p, hp, hviol⟩ := hex
      rcases List.mem_cons.mp hp with hpp | hpr
      · subst hpp
        rcases hviol with hva | hvd
        · rw [closingStep_violApp_error hva] at hstep
          exact absurd hstep (by simp)
        · exact (closingStep_violDis_not_ok hwf0 hvd hstep).elim
      · have hagree : ∀ q : Int × SegmentationHypothesis,
            q ∈ m.segmentationHypotheses →
            s1 q.2.detection.openGMVariableId =
              s q.2.detection.openGMVariableId := by
          intro q hq
          exact closingStep_agree_ids hwf0 hstep _
            (Or.inl (List.mem_map_of_mem _ hq))
        have hagree_link : ∀ L ∈ m.linkingHypotheses,
            s1 L.2.var.openGMVariableId = s L.2.var.openGMVariableId := by
          intro L hL
          exact closingStep_agree_ids hwf0 hstep _
            (Or.inr (List.mem_map_of_mem _ hL))
        have hviol1 : ViolApp m p s1 ∨ ViolDis m p s1 := by
          rcases hviol with hva | hvd
          · exact Or.inl ((violApp_transfer (hagree p (restsub p hpr))
              hagree_link).mpr hva)
          · exact Or.inr ((violDis_transfer (hagree p (restsub p hpr))
              hagree_link).mpr hvd)
        obtain ⟨q, hq, e, hclr, hcase⟩ := ih restwf restsub ⟨p, hpr, hviol1⟩
        refine ⟨q, List.mem_cons_of_mem _ hq, e, by rw [hcl]; exact hclr, ?_⟩
        rcases hcase with ⟨he, hv⟩ | ⟨he, hv⟩
        · exact Or.inl ⟨he, (violApp_transfer (hagree q (restsub q hq))
            hagree_link).mp hv⟩
        · exact Or.inr ⟨he, (violDis_transfer (hagree q (restsub q hq))
            hagree_link).mp hv⟩

/-- C3: given a sane variable-id assignment, reconstruction enforces
the appearance/disappearance invariant: when it returns a Solution,
every hypothesis with active detection and no active incoming
(resp. outgoing) link has a present and active appearance
(resp. disappearance) variable; and when the post-pass-2 solution
violates the invariant at some hypothesis, reconstruction fails with a
missing-appearance/disappearance error identifying a violating
hypothesis. -/
theorem claim_C3_appearance_disappearance (m : Model) (anns : List GTLink)
    (hwf : IdsWellFormed m) :
    (∀ sol, readGTfromJson m anns = .ok sol →
      ∀ p ∈ m.segmentationHypotheses, 0 < sol p.2.detection.openGMVariableId →
        ((getNumActiveIncomingLinks m p.1 sol = 0 →
           p.2.appearance.openGMVariableId ≠ -1 ∧
           sol p.2.appearance.openGMVariableId = 1) ∧
         (getNumActiveOutgoingLinks m p.1 sol = 0 →
           p.2.disappearance.openGMVariableId ≠ -1 ∧
           sol p.2.disappearance.openGMVariableId = 1))) ∧
    (∀ s1, pass1 m initSolution anns = .ok s1 →
      (∃ p ∈ m.segmentationHypotheses,
        ViolApp m p (pass2 m s1 anns) ∨ ViolDis m p (pass2 m s1 anns)) →
      ∃ q ∈ m.segmentationHypotheses, ∃ e,
        readGTfromJson m anns = .error e ∧
        ((e = .missingAppearance q.1 ∧ ViolApp m q (pass2 m s1 anns)) ∨
         (e = .missingDisappearance q.1 ∧
          ViolDis m q (pass2 m s1 anns)))) := by
  constructor
  · intro sol h
    unfold readGTfromJson at h
    cases hp : pass1 m initSolution anns with
    | error e => rw [hp] at h; simp at h
    | ok s1 =>
      rw [hp] at h
      simp only at h
      exact closing_ok_invariant m.segmentationHypotheses hwf
        (fun p hp2 => hp2) h
  · intro s1 hp1 hex
    obtain ⟨q, hq, e, hcl, hcase⟩ :=
      closing_viol_error m.segmentationHypotheses hwf (fun p hp2 => hp2) hex
    refine ⟨q, hq, e, ?_, hcase⟩
    unfold readGTfromJson
    rw [hp1]
    exact hcl

/-- The spec §8 failure scenario, extended with disappearance variables:
hypothesis 1 (detection id 0, disappearance id 2, NO appearance
variable) links to hypothesis 2 (detection id 1, disappearance id 4);
link variable id 10. -/
def exampleG3 : Model :=
  { segmentationHypotheses :=
      [(1, segH 0 (-1) (-1) 2), (2, segH 1 (-1) (-1) 4)],
    linkingHypotheses := [((1, 2), ⟨⟨[], 10⟩⟩)],
    exclusionConstraints := [] }

/-- The single active annotation (1,2). -/
def appAnns : List GTLink := [⟨1, 2, true⟩]

/-- The pass-1 result on `exampleG3`: link 10 and detection 0 active. -/
def s1G3 : Solution := setSol (setSol initSolution 10 1) 0 1

/-- Witness for C3 on `exampleG3`: hypothesis 1 is active with no
active incoming link and no appearance variable, and reconstruction
fails with the missing-appearance error naming it. -/
theorem claim_C3_appearance_disappearance_witness :
    IdsWellFormed exampleG3 ∧
    (∃ q ∈ exampleG3.segmentationHypotheses, ∃ e,
      readGTfromJson exampleG3 appAnns = .error e ∧
      ((e = .missingAppearance q.1 ∧
        ViolApp exampleG3 q (pass2 exampleG3 s1G3 appAnns)) ∨
       (e = .missingDisappearance q.1 ∧
        ViolDis exampleG3 q (pass2 exampleG3 s1G3 appAnns)))) :=
  ⟨by decide,
   (claim_C3_appearance_disappearance exampleG3 appAnns (by decide)).2 s1G3
     rfl (by decide)⟩

end mht
